import Mathlib

/-! The navigation and listing state machine of rover.

A shallow embedding of `src/rover.c` (with the constants of `src/config.h`).

* C strings are `List Char` (the characters before the terminating NUL).
* C `int` values are `Int` (the counts and indices of a listing stay inside the
  range of `int`); the `uint8_t` flags are `Nat`, reduced modulo 256 where they
  are written; the tab arrays `scroll[10]`, `fsel[10]`, `flags[10]` and `cwd[10]`
  are functions of the tab index. A `cwd` buffer holds `FILENAME_MAX` characters,
  the terminating NUL among them: `strcpy_CWD` and `strcat_CWD` keep to it.
* The external collaborators (the file system behind `opendir`/`readdir`/`stat`,
  the locale collation `strcoll`, the environment variable `HOME`, the terminal's
  erase and kill characters) are the fields of `world`.
* A handler returns `none` when the C code would read or write outside an object
  (an entry index outside the listing, `strrchr` returning `NULL`, a string
  longer than the `cwd` buffer, ...) or would divide by zero.
* The curses calls and `spawn` do not change the navigation state and are left
  out. `update_browser` draws and changes no state either; the model keeps the
  division of its scrollbar arithmetic, which `cd` reaches with whatever count
  `ls` returns. The other calls of `update_browser` in `main` are left out: they
  come behind `if (!rover.nfiles) continue;` or, in the `RVK_CD_UP` handler and
  in the search loop after a `SIGWINCH`, behind a `cd` that has run the same
  division on the same count and the same `LINES`.
-/

namespace Rover

/-! ## Constants -/

/-- Listing view flag `SHOW_FILES` (`0x01u`). -/
def SHOW_FILES : Nat := 0x01
/-- Listing view flag `SHOW_DIRS` (`0x02u`). -/
def SHOW_DIRS : Nat := 0x02
/-- Listing view flag `SHOW_HIDDEN` (`0x04u`). -/
def SHOW_HIDDEN : Nat := 0x04

/-- Size of the `SEARCH` buffer. -/
def SEARCHSZ : Int := 256

/-- Jump distance, `config.h`. -/
def RV_JUMP : Int := 10

def RVK_QUIT : List Char := ['q']
def RVK_DOWN : List Char := ['j']
def RVK_UP : List Char := ['k']
def RVK_JUMP_DOWN : List Char := ['J']
def RVK_JUMP_UP : List Char := ['K']
def RVK_CD_DOWN : List Char := ['l']
def RVK_CD_UP : List Char := ['h']
def RVK_HOME : List Char := ['H']
def RVK_SHELL : List Char := ['^', 'M']
def RVK_VIEW : List Char := [' ']
def RVK_EDIT : List Char := ['e']
def RVK_SEARCH : List Char := ['/']
def RVK_TG_FILES : List Char := ['f']
def RVK_TG_DIRS : List Char := ['d']
def RVK_TG_HIDDEN : List Char := ['s']

/-- Curses key code `KEY_DOWN` (octal 0402). -/
def KEY_DOWN : Int := 258
/-- Curses key code `KEY_LEFT` (octal 0404). -/
def KEY_LEFT : Int := 260
/-- Curses key code `KEY_BACKSPACE` (octal 0407). -/
def KEY_BACKSPACE : Int := 263
/-- Curses key code `KEY_ENTER` (octal 0527). -/
def KEY_ENTER : Int := 343

/-- Height of the listing view: `#define HEIGHT (LINES-4)`. -/
def HEIGHT (LINES : Int) : Int := LINES - 4

/-! ## Data model -/

/-- Information associated to each entry in the listing (`row_t`). `size` is
`none` where `ls` does not write the field (directory rows). -/
structure row_t where
  name : List Char
  size : Option Int
deriving DecidableEq

/-- One child of a directory as `readdir` and `stat` report it: its `d_name`,
`S_ISDIR(st_mode)` and `st_size`. -/
structure dirent where
  d_name : List Char
  isdir : Bool
  st_size : Int
deriving DecidableEq

/-- The surroundings of the program. `opendir path` is `none` when the directory
cannot be opened and otherwise the children that `readdir` walks through;
`keyname_ext` names the key codes outside 7-bit ASCII; `FILENAME_MAX` is the
constant of `<stdio.h>`, the size of one `cwd` buffer. -/
structure world where
  FILENAME_MAX : Nat
  opendir : List Char → Option (List dirent)
  strcoll : List Char → List Char → Int
  HOME : Option (List Char)
  erasechar : Int
  killchar : Int
  keyname_ext : Int → List Char

/-- Global state (`struct rover_t`), without the curses window. `rows` is `[]`
where the C pointer is `NULL`. -/
structure rover_t where
  tab : Nat
  nfiles : Int
  scroll : Nat → Int
  fsel : Nat → Int
  flags : Nat → Nat
  rows : List row_t
  cwd : Nat → List Char

/-- Locals of the `RVK_SEARCH` handler that live across its input loop. -/
structure search_t where
  oldsel : Int
  oldscroll : Int
  SEARCH : List Char
deriving DecidableEq

/-- The program between two inputs: the global state, the curses global `LINES`,
and, while the input loop of the `RVK_SEARCH` handler runs, its locals. -/
structure machine where
  rover : rover_t
  LINES : Int
  search : Option search_t

/-- What the program waits for: a key from `getch`, or the signal `SIGWINCH`
after which curses reports `lines` terminal lines. -/
inductive event where
  | key (ch : Int)
  | winch (lines : Int)
deriving DecidableEq

/-! ## Accessor macros -/

/-- The macro `SCROLL`: `rover.scroll[rover.tab]`. -/
def SCROLL (s : rover_t) : Int := s.scroll s.tab
/-- The macro `FSEL`: `rover.fsel[rover.tab]`. -/
def FSEL (s : rover_t) : Int := s.fsel s.tab
/-- The macro `FLAGS`: `rover.flags[rover.tab]`. -/
def FLAGS (s : rover_t) : Nat := s.flags s.tab
/-- The macro `CWD`: `rover.cwd[rover.tab]`. -/
def CWD (s : rover_t) : List Char := s.cwd s.tab

/-- The macro `FNAME(I)`: `rover.rows[I].name`; `none` outside the array. -/
def FNAME (s : rover_t) (i : Int) : Option (List Char) :=
  if 0 ≤ i then s.rows[i.toNat]?.map row_t.name else none

/-- Assignment `SCROLL = v`. -/
def setSCROLL (s : rover_t) (v : Int) : rover_t :=
  { s with scroll := fun i => if i = s.tab then v else s.scroll i }
/-- Assignment `FSEL = v`. -/
def setFSEL (s : rover_t) (v : Int) : rover_t :=
  { s with fsel := fun i => if i = s.tab then v else s.fsel i }
/-- Assignment `FLAGS = v`. -/
def setFLAGS (s : rover_t) (v : Nat) : rover_t :=
  { s with flags := fun i => if i = s.tab then v else s.flags i }
/-- The buffer `CWD` holding the string `v`, for a `v` that fits it: what
`strcpy_CWD` and `strcat_CWD` write, and what the `RVK_CD_UP` handler leaves
when it cuts the path short in place. -/
def setCWD (s : rover_t) (v : List Char) : rover_t :=
  { s with cwd := fun i => if i = s.tab then v else s.cwd i }
/-- Assignment `rover.nfiles = n`. -/
def set_nfiles (s : rover_t) (n : Int) : rover_t := { s with nfiles := n }
/-- Assignment `rover.rows = rows`. -/
def set_rows (s : rover_t) (rows : List row_t) : rover_t := { s with rows := rows }
/-- Assignment `rover.tab = t`. -/
def set_tab (s : rover_t) (t : Nat) : rover_t := { s with tab := t }

/-- The call `strcpy(CWD, src)`: `none` when `src` and its NUL do not fit the
`FILENAME_MAX` characters of `rover.cwd[rover.tab]`, where the C code writes
past the buffer (into `rover.cwd[rover.tab + 1]`, or past `rover`). -/
def strcpy_CWD (w : world) (s : rover_t) (src : List Char) : Option rover_t :=
  if src.length < w.FILENAME_MAX then some (setCWD s src) else none

/-- The call `strcat(CWD, src)`: `none` when the longer string and its NUL do
not fit the `FILENAME_MAX` characters of `rover.cwd[rover.tab]`, where the C
code writes past the buffer (into `rover.cwd[rover.tab + 1]`, or past `rover`). -/
def strcat_CWD (w : world) (s : rover_t) (src : List Char) : Option rover_t :=
  if (CWD s ++ src).length < w.FILENAME_MAX then some (setCWD s (CWD s ++ src)) else none

/-! ## C library functions on strings -/

/-- Code of a character as `getch` delivers it. -/
def chr (c : Char) : Int := c.toNat

/-- The libc `strcmp`: `-1`, `0` or `1`, the sign of the difference of the
character codes at the first place where the strings differ (a string that
ends there has the terminating NUL, code 0, at that place). -/
def strcmp : List Char → List Char → Int
  | [], [] => 0
  | [], _ :: _ => -1
  | _ :: _, [] => 1
  | a :: s, b :: t => if a = b then strcmp s t else if a.toNat < b.toNat then -1 else 1

/-- The libc `strncmp`: `strcmp` over at most `n` characters. -/
def strncmp : List Char → List Char → Nat → Int
  | _, _, 0 => 0
  | [], [], _ + 1 => 0
  | [], _ :: _, _ + 1 => -1
  | _ :: _, [], _ + 1 => 1
  | a :: s, b :: t, n + 1 =>
    if a = b then strncmp s t n else if a.toNat < b.toNat then -1 else 1

/-- The libc `isprint` on 7-bit ASCII. -/
def isprint (ch : Int) : Bool := decide (32 ≤ ch ∧ ch ≤ 126)

/-- The curses `keyname`: a printable character names itself, a control
character is written with a caret. -/
def keyname (w : world) (ch : Int) : List Char :=
  if 0 ≤ ch ∧ ch < 32 then ['^', Char.ofNat (ch.toNat + 64)]
  else if 32 ≤ ch ∧ ch < 127 then [Char.ofNat ch.toNat]
  else if ch = 127 then ['^', '?']
  else w.keyname_ext ch

/-- The libc `qsort` with comparison `cmp`, as a sort by insertion. -/
def qsort {α : Type} (cmp : α → α → Int) (l : List α) : List α :=
  l.insertionSort (fun a b => cmp a b ≤ 0)

/-! ## Listing engine -/

/-- Comparison used to sort listing entries (`rowcmp`). -/
def rowcmp (w : world) (r1 r2 : row_t) : Int :=
  let isdir1 : Int := if '/' ∈ r1.name then 1 else 0
  let isdir2 : Int := if '/' ∈ r2.name then 1 else 0
  let cmpdir := isdir2 - isdir1
  if cmpdir ≠ 0 then cmpdir else w.strcoll r1.name r2.name

/-- The second `readdir` loop of `ls`: the rows written for the children that
pass the filters, in the order read. -/
def ls_rows (flags : Nat) : List dirent → List row_t
  | [] => []
  | ep :: rest =>
    if strcmp ep.d_name ['.'] = 0 ∨ strcmp ep.d_name ['.', '.'] = 0 then
      ls_rows flags rest
    else if flags &&& SHOW_HIDDEN = 0 ∧ ep.d_name.head? = some '.' then
      ls_rows flags rest
    else if ep.isdir then
      if flags &&& SHOW_DIRS ≠ 0 then
        { name := ep.d_name ++ ['/'], size := none } :: ls_rows flags rest
      else ls_rows flags rest
    else if flags &&& SHOW_FILES ≠ 0 then
      { name := ep.d_name, size := some ep.st_size } :: ls_rows flags rest
    else ls_rows flags rest

/-- Get all entries for a given path (`ls`): the returned count, and the array
stored through `rowsp` (`none` when nothing is stored). -/
def ls (w : world) (path : List Char) (flags : Nat) : Int × Option (List row_t) :=
  match w.opendir path with
  | none => (-1, none)
  | some dp =>
    let rows := qsort (rowcmp w) (ls_rows flags dp)
    ((rows.length : Int), some rows)

/-- Update the listing view (`update_browser`). Drawing changes no field of
`rover`. Where `rover.nfiles > HEIGHT` the scrollbar is placed by
`(SCROLL + (HEIGHT >> 1)) * HEIGHT / rover.nfiles` and
`(HEIGHT-1) * HEIGHT / rover.nfiles`: `none` when that divisor is 0. -/
def update_browser (LINES : Int) (s : rover_t) : Option rover_t :=
  if s.nfiles > HEIGHT LINES then
    if s.nfiles = 0 then none else some s
  else some s

/-- The body of `cd` up to its closing `update_browser()`: the cursor reset and
the new listing. `free_rows` leaves `rover.rows` at `NULL`. -/
def relist (w : world) (reset : Bool) (s : rover_t) : rover_t :=
  let s := if reset then setFSEL (setSCROLL s 0) 0 else s
  let s := if s.nfiles ≠ 0 then set_rows s [] else s
  match ls w (CWD s) (FLAGS s) with
  | (n, some rows) => set_nfiles (set_rows s rows) n
  | (n, none) => set_nfiles s n

/-- Change working directory (`cd`) on a terminal of `LINES` lines; the caller
has written the new path to `CWD`. -/
def cd (w : world) (LINES : Int) (reset : Bool) (s : rover_t) : Option rover_t :=
  update_browser LINES (relist w reset s)

/-! ## Key handlers of `main` -/

/-- Handler of `RVK_DOWN`. -/
def key_down (LINES : Int) (s : rover_t) : rover_t :=
  if s.nfiles = 0 then s
  else if FSEL s = s.nfiles - 1 then setSCROLL (setFSEL s 0) 0
  else
    let s := setFSEL s (FSEL s + 1)
    if FSEL s - SCROLL s = HEIGHT LINES then setSCROLL s (SCROLL s + 1) else s

/-- Handler of `RVK_UP`. -/
def key_up (LINES : Int) (s : rover_t) : rover_t :=
  if s.nfiles = 0 then s
  else if FSEL s = 0 then
    let s := setFSEL s (s.nfiles - 1)
    let s := setSCROLL s (s.nfiles - HEIGHT LINES)
    if SCROLL s < 0 then setSCROLL s 0 else s
  else
    let s := setFSEL s (FSEL s - 1)
    if FSEL s < SCROLL s then setSCROLL s (SCROLL s - 1) else s

/-- Handler of `RVK_JUMP_DOWN`. -/
def key_jump_down (LINES : Int) (s : rover_t) : rover_t :=
  if s.nfiles = 0 then s
  else
    let s := setFSEL s (FSEL s + RV_JUMP)
    let s := if FSEL s ≥ s.nfiles then setFSEL s (s.nfiles - 1) else s
    if s.nfiles > HEIGHT LINES then
      let s := setSCROLL s (SCROLL s + RV_JUMP)
      if SCROLL s > s.nfiles - HEIGHT LINES then setSCROLL s (s.nfiles - HEIGHT LINES)
      else s
    else s

/-- Handler of `RVK_JUMP_UP`. -/
def key_jump_up (s : rover_t) : rover_t :=
  if s.nfiles = 0 then s
  else
    let s := setFSEL s (FSEL s - RV_JUMP)
    let s := if FSEL s < 0 then setFSEL s 0 else s
    let s := setSCROLL s (SCROLL s - RV_JUMP)
    if SCROLL s < 0 then setSCROLL s 0 else s

/-- Handler of `RVK_CD_DOWN`: `strcat(CWD, FNAME(FSEL)); cd(1);` on a
directory row. -/
def key_cd_down (w : world) (LINES : Int) (s : rover_t) : Option rover_t :=
  if s.nfiles = 0 then some s
  else
    match FNAME s (FSEL s) with
    | none => none
    | some name =>
      if '/' ∉ name then some s
      else
        match strcat_CWD w s name with
        | none => none
        | some s => cd w LINES true s

/-- The loop `while (strcmp(FNAME(FSEL), dirname)) FSEL++;` of the `RVK_CD_UP`
handler over the rows from index `i` on: the index where it stops, or `none`
when it runs past the last row. -/
def cd_up_scan (dirname : List Char) : List row_t → Nat → Option Nat
  | [], _ => none
  | r :: rest, i =>
    if strcmp r.name dirname ≠ 0 then cd_up_scan dirname rest (i + 1) else some i

/-- Handler of `RVK_CD_UP`. With `p` the path without its last character,
`dirname` is what follows the last `'/'` of `p` and the new `CWD` is `p` up to
and including that `'/'`; `HEIGHT >> 1` is `HEIGHT / 2`, rounded down. -/
def key_cd_up (w : world) (LINES : Int) (s : rover_t) : Option rover_t :=
  if (CWD s).length = 1 then some s
  else if (CWD s).length = 0 then none
  else
    let p := (CWD s).dropLast
    if '/' ∉ p then none
    else
      let dirname := p.rtakeWhile (fun c => c != '/')
      let first := dirname.head?
      match cd w LINES true (setCWD s (p.rdropWhile (fun c => c != '/'))) with
      | none => none
      | some s =>
        if FLAGS s &&& SHOW_DIRS ≠ 0 ∧ (FLAGS s &&& SHOW_HIDDEN ≠ 0 ∨ first ≠ some '.') then
          match cd_up_scan (dirname ++ ['/']) (s.rows.drop (FSEL s).toNat) (FSEL s).toNat with
          | none => none
          | some sel =>
            let s := setFSEL s sel
            if s.nfiles > HEIGHT LINES then
              let s := setSCROLL s (FSEL s - HEIGHT LINES / 2)
              let s := if SCROLL s < 0 then setSCROLL s 0 else s
              let s := if SCROLL s > s.nfiles - HEIGHT LINES then
                setSCROLL s (s.nfiles - HEIGHT LINES) else s
              some s
            else some s
        else some s

/-- Handler of `RVK_HOME`: `strcpy(CWD, getenv("HOME"));`, then
`strcat(CWD, "/");` unless the path ends with `'/'`, then `cd(1);`. -/
def key_home (w : world) (LINES : Int) (s : rover_t) : Option rover_t :=
  match w.HOME with
  | none => none
  | some home =>
    if home.length = 0 then none
    else
      match strcpy_CWD w s home with
      | none => none
      | some s =>
        match (if (CWD s).getLast? ≠ some '/' then strcat_CWD w s ['/'] else some s) with
        | none => none
        | some s => cd w LINES true s

/-- Handlers of `RVK_VIEW` and `RVK_EDIT`: the selected name is read, the
state stays as it is. -/
def key_view (s : rover_t) : Option rover_t :=
  if s.nfiles = 0 then some s
  else
    match FNAME s (FSEL s) with
    | none => none
    | some _ => some s

/-- Handlers of `RVK_TG_FILES`, `RVK_TG_DIRS` and `RVK_TG_HIDDEN`:
`FLAGS ^= bit; cd(1);` on the `uint8_t` flags. -/
def key_toggle (w : world) (LINES : Int) (bit : Nat) (s : rover_t) : Option rover_t :=
  cd w LINES true (setFLAGS s ((FLAGS s ^^^ bit) % 256))

/-! ## Search -/

/-- Interactive `getstr` for the key `ch` (`igetstr`): the return value and the
buffer afterwards. -/
def igetstr (w : world) (buffer : List Char) (maxlen : Int) (ch : Int) : Int × List Char :=
  let length : Int := buffer.length
  if ch = chr '\r' ∨ ch = chr '\n' ∨ ch = KEY_DOWN ∨ ch = KEY_ENTER then (0, buffer)
  else if ch = w.erasechar ∨ ch = KEY_LEFT ∨ ch = KEY_BACKSPACE then
    if length ≠ 0 then (1, buffer.dropLast) else (1, buffer)
  else if ch = w.killchar then (1, [])
  else if length < maxlen - 1 ∧ isprint ch then (1, buffer ++ [Char.ofNat ch.toNat])
  else (1, buffer)

/-- The loop `for (sel = 0; sel < rover.nfiles; sel++) if (!strncmp(FNAME(sel),
SEARCH, length)) break;` from index `sel` with `k` indices left below
`rover.nfiles`: the final `sel`, or `none` when a row outside the array is read. -/
def search_scan (rows : List row_t) (SEARCH : List Char) : Nat → Nat → Option Nat
  | 0, sel => some sel
  | k + 1, sel =>
    match rows[sel]? with
    | none => none
    | some r =>
      if strncmp r.name SEARCH SEARCH.length = 0 then some sel
      else search_scan rows SEARCH k (sel + 1)

/-- One turn of the loop `while (igetstr(SEARCH, SEARCHSZ))` of the
`RVK_SEARCH` handler; the second component is `none` once the loop is left. -/
def search_key (w : world) (LINES : Int) (s : rover_t) (ss : search_t) (ch : Int) :
    Option (rover_t × Option search_t) :=
  let r := igetstr w ss.SEARCH SEARCHSZ ch
  if r.1 = 0 then some (s, none)
  else
    let ss := { ss with SEARCH := r.2 }
    if ss.SEARCH.length ≠ 0 then
      match search_scan s.rows ss.SEARCH s.nfiles.toNat 0 with
      | none => none
      | some n =>
        let sel : Int := n
        if sel < s.nfiles then
          let s := setFSEL s sel
          if s.nfiles > HEIGHT LINES then
            if sel < 3 then some (setSCROLL s 0, some ss)
            else if sel - 3 > s.nfiles - HEIGHT LINES then
              some (setSCROLL s (s.nfiles - HEIGHT LINES), some ss)
            else some (setSCROLL s (sel - 3), some ss)
          else some (s, some ss)
        else some (s, some ss)
    else some (setSCROLL (setFSEL s ss.oldsel) ss.oldscroll, some ss)

/-- Handler of `RVK_SEARCH` up to its input loop. -/
def key_search (s : rover_t) : Option search_t :=
  if s.nfiles = 0 then none
  else some { oldsel := FSEL s, oldscroll := SCROLL s, SEARCH := [] }

/-! ## The event loop -/

/-- The `SIGWINCH` handler `handle_winch`: curses takes the new size, `LINES`
is `lines`, and `cd(0)` runs on it. -/
def handle_winch (w : world) (lines : Int) (m : machine) : Option machine :=
  (cd w lines false m.rover).map (fun s => { m with LINES := lines, rover := s })

/-- One key in the dispatch of `main` (outside the search loop). `RVK_QUIT`
leaves the state as it is; `main_loop` stops there. -/
def dispatch (w : world) (m : machine) (ch : Int) : Option machine :=
  let key := keyname w ch
  if key = RVK_QUIT then some m
  else if ch ≥ chr '0' ∧ ch ≤ chr '9' then
    (cd w m.LINES false (set_tab m.rover (ch - chr '0').toNat)).map
      (fun s => { m with rover := s })
  else if key = RVK_DOWN then some { m with rover := key_down m.LINES m.rover }
  else if key = RVK_UP then some { m with rover := key_up m.LINES m.rover }
  else if key = RVK_JUMP_DOWN then some { m with rover := key_jump_down m.LINES m.rover }
  else if key = RVK_JUMP_UP then some { m with rover := key_jump_up m.rover }
  else if key = RVK_CD_DOWN then
    (key_cd_down w m.LINES m.rover).map (fun s => { m with rover := s })
  else if key = RVK_CD_UP then
    (key_cd_up w m.LINES m.rover).map (fun s => { m with rover := s })
  else if key = RVK_HOME then
    (key_home w m.LINES m.rover).map (fun s => { m with rover := s })
  else if key = RVK_SHELL then some m
  else if key = RVK_VIEW then (key_view m.rover).map (fun s => { m with rover := s })
  else if key = RVK_EDIT then (key_view m.rover).map (fun s => { m with rover := s })
  else if key = RVK_SEARCH then some { m with search := key_search m.rover }
  else if key = RVK_TG_FILES then
    (key_toggle w m.LINES SHOW_FILES m.rover).map (fun s => { m with rover := s })
  else if key = RVK_TG_DIRS then
    (key_toggle w m.LINES SHOW_DIRS m.rover).map (fun s => { m with rover := s })
  else if key = RVK_TG_HIDDEN then
    (key_toggle w m.LINES SHOW_HIDDEN m.rover).map (fun s => { m with rover := s })
  else some m

/-- The program's reaction to one event: a key goes to the search loop while it
runs and to the dispatch of `main` otherwise. -/
def step (w : world) (m : machine) : event → Option machine
  | event.winch lines => handle_winch w lines m
  | event.key ch =>
    match m.search with
    | some ss =>
      (search_key w m.LINES m.rover ss ch).map
        (fun r => { m with rover := r.1, search := r.2 })
    | none => dispatch w m ch

/-- Whether the event is the key `RVK_QUIT`, read by the dispatch of `main`. -/
def quits (w : world) (m : machine) : event → Bool
  | event.winch _ => false
  | event.key ch => decide (m.search = none ∧ keyname w ch = RVK_QUIT)

/-- The loop `while (1)` of `main` over the events that arrive; it ends at
`RVK_QUIT`. -/
def main_loop (w : world) : machine → List event → Option machine
  | m, [] => some m
  | m, e :: rest =>
    if quits w m e then some m
    else
      match step w m e with
      | none => none
      | some m1 => main_loop w m1 rest

/-! ## A sample directory and session -/

/-- A directory holding the files `apple`, `readme.txt`, `zeta`, the hidden
file `.profile` and the directory `report`. -/
def sample_dir : List dirent :=
  [ { d_name := ['.'], isdir := true, st_size := 4096 },
    { d_name := ['.', '.'], isdir := true, st_size := 4096 },
    { d_name := "zeta".toList, isdir := false, st_size := 7 },
    { d_name := "apple".toList, isdir := false, st_size := 12 },
    { d_name := ".profile".toList, isdir := false, st_size := 80 },
    { d_name := "report".toList, isdir := true, st_size := 4096 },
    { d_name := "readme.txt".toList, isdir := false, st_size := 300 } ]

/-- A world in the C locale where `/home/` is `sample_dir`, `/home/report/` is
empty and nothing else can be opened; `FILENAME_MAX` is 4096. -/
def sample_world : world :=
  { FILENAME_MAX := 4096
    opendir := fun path =>
      if path = "/home/".toList then some sample_dir
      else if path = "/home/report/".toList then
        some [ { d_name := ['.'], isdir := true, st_size := 4096 },
               { d_name := ['.', '.'], isdir := true, st_size := 4096 } ]
      else none
    strcoll := strcmp
    HOME := some "/home".toList
    erasechar := 127
    killchar := 21
    keyname_ext := fun _ => "KEY".toList }

/-- The state after `cd(1)` in tab 1 on `/home/` in `sample_world`, on a
terminal of 24 lines. -/
def sample_machine : machine :=
  { rover := relist sample_world true
      { tab := 1, nfiles := 0, scroll := fun _ => 0, fsel := fun _ => 0,
        flags := fun _ => SHOW_FILES ||| SHOW_DIRS, rows := [],
        cwd := fun _ => "/home/".toList }
    LINES := 24
    search := none }

/-- The state `sample_machine` after the key `RVK_TG_HIDDEN`: five entries. -/
def sample_hidden : machine :=
  { sample_machine with
    rover := relist sample_world true
      (setFLAGS sample_machine.rover ((FLAGS sample_machine.rover ^^^ SHOW_HIDDEN) % 256)) }

/-- The events `es` handled one after the other inside one run of the input loop
of the `RVK_SEARCH` handler: `none` once the loop has been left. -/
def session_run (w : world) : machine → List event → Option machine
  | m, [] => if m.search.isSome then some m else none
  | m, e :: rest =>
    if m.search.isSome then
      match step w m e with
      | none => none
      | some m1 => session_run w m1 rest
    else none

/-- The state `sample_machine` inside the search loop with the query `r`. -/
def sample_search : machine :=
  { sample_machine with search := some { oldsel := 0, oldscroll := 0, SEARCH := ['r'] } }

/-- The state `sample_machine` after the key `RVK_SEARCH`. -/
def sample_start : machine :=
  { sample_machine with search := key_search sample_machine.rover }

/-- The state `sample_start` after the key `z`: the cursor is on `zeta`. -/
def sample_found : machine :=
  { sample_start with
    rover := setFSEL sample_start.rover 3
    search := some { oldsel := 0, oldscroll := 0, SEARCH := ['z'] } }

/-! ## The listing as the specification words it -/

/-- Whether the listing shows the child `ep` under the filter mask `flags`: it
is not `.` or `..`, it does not start with `'.'` unless `SHOW_HIDDEN` is set, and
the bit of its class (`SHOW_DIRS` for a directory, `SHOW_FILES` for a file) is
set. -/
def spec_listed (flags : Nat) (ep : dirent) : Bool :=
  decide (ep.d_name ≠ ['.'] ∧ ep.d_name ≠ ['.', '.'] ∧
    (ep.d_name.head? ≠ some '.' ∨ flags &&& SHOW_HIDDEN ≠ 0) ∧
    (if ep.isdir then flags &&& SHOW_DIRS ≠ 0 else flags &&& SHOW_FILES ≠ 0))

/-- The entry of the child `ep`: a directory appears as its name followed by
`'/'`, a file under its unchanged name with its size. -/
def spec_entry (ep : dirent) : row_t :=
  if ep.isdir then { name := ep.d_name ++ ['/'], size := none }
  else { name := ep.d_name, size := some ep.st_size }

/-- The collation is a strict total order on names: comparing the other way
round flips the sign, `<` is transitive, and only equal names compare equal. -/
def collation_total_order (coll : List Char → List Char → Int) : Prop :=
  (∀ a b, Int.sign (coll a b) = - Int.sign (coll b a)) ∧
  (∀ a b c, coll a b < 0 → coll b c < 0 → coll a c < 0) ∧
  (∀ a b, coll a b = 0 ↔ a = b)

/-! ## More sample worlds and states -/

/-- A world in the C locale whose root `/` holds the directories `usr`, `etc`,
`bin` and the file `motd`, and where `/etc/` is empty. -/
def sample_root : world :=
  { sample_world with
    opendir := fun path =>
      if path = ['/'] then
        some [ { d_name := ['.'], isdir := true, st_size := 4096 },
               { d_name := ['.', '.'], isdir := true, st_size := 4096 },
               { d_name := "usr".toList, isdir := true, st_size := 4096 },
               { d_name := "motd".toList, isdir := false, st_size := 33 },
               { d_name := "etc".toList, isdir := true, st_size := 4096 },
               { d_name := "bin".toList, isdir := true, st_size := 4096 } ]
      else if path = "/etc/".toList then
        some [ { d_name := ['.'], isdir := true, st_size := 4096 },
               { d_name := ['.', '.'], isdir := true, st_size := 4096 } ]
      else none
    HOME := some ['/'] }

/-- The state after `cd(1)` in tab 1 on `/etc/` in `sample_root`, on a terminal
of 24 lines. -/
def sample_etc : machine :=
  { rover := relist sample_root true
      { tab := 1, nfiles := 0, scroll := fun _ => 0, fsel := fun _ => 0,
        flags := fun _ => SHOW_FILES ||| SHOW_DIRS, rows := [],
        cwd := fun _ => "/etc/".toList }
    LINES := 24
    search := none }

/-- The listing of `/` in `sample_root` under the default mask. -/
def sample_root_rows : List row_t :=
  [ { name := "bin/".toList, size := none },
    { name := "etc/".toList, size := none },
    { name := "usr/".toList, size := none },
    { name := "motd".toList, size := some 33 } ]

/-- The state after `cd(1)` in tab 1 on `/root/`, which `sample_world` cannot
open, on a terminal of 24 lines. -/
def sample_unreadable : machine :=
  { rover := relist sample_world true
      { tab := 1, nfiles := 0, scroll := fun _ => 0, fsel := fun _ => 0,
        flags := fun _ => SHOW_FILES ||| SHOW_DIRS, rows := [],
        cwd := fun _ => "/root/".toList }
    LINES := 24
    search := none }

/-- The state `sample_machine` with the cursor moved down to the last of its
four entries. -/
def sample_last : machine :=
  { sample_machine with rover := setFSEL sample_machine.rover 3 }

/-- The state `sample_hidden` on a terminal of 7 lines (a view of 3 rows)
inside the search loop with the query `re`. -/
def sample_small : machine :=
  { sample_hidden with
    LINES := 7
    search := some { oldsel := 0, oldscroll := 0, SEARCH := ['r', 'e'] } }

/-- The state `sample_hidden` on a terminal of 8 lines (a view of 4 rows)
inside the search loop with an empty query. -/
def sample_view4 : machine :=
  { sample_hidden with
    LINES := 8
    search := some { oldsel := 0, oldscroll := 0, SEARCH := [] } }

/-- The world `sample_world` started with `HOME=home`, a relative path. -/
def sample_relative_home : world :=
  { sample_world with HOME := some "home".toList }

/-- The state after `cd(1)` in tab 1 on `/` in `sample_root`, on a terminal of
24 lines. -/
def sample_top : machine :=
  { rover := relist sample_root true
      { tab := 1, nfiles := 0, scroll := fun _ => 0, fsel := fun _ => 0,
        flags := fun _ => SHOW_FILES ||| SHOW_DIRS, rows := [],
        cwd := fun _ => ['/'] }
    LINES := 24
    search := none }

/-- A tab 1 whose path has 4090 characters (`/`, 4088 times `a`, `/`) and whose
listing is the one directory `report/`, on a terminal of 24 lines. -/
def sample_deep : machine :=
  { rover :=
      { tab := 1, nfiles := 1, scroll := fun _ => 0, fsel := fun _ => 0,
        flags := fun _ => SHOW_FILES ||| SHOW_DIRS,
        rows := [{ name := "report/".toList, size := none }],
        cwd := fun _ => '/' :: (List.replicate 4088 'a' ++ ['/']) }
    LINES := 24
    search := none }

/-! ## Frame of a handler -/

/-- The state `s1` has the active tab of `s` and, in every other tab, the path,
cursor, scroll offset and mask of `s`. -/
def same_others (s s1 : rover_t) : Prop :=
  s1.tab = s.tab ∧
  ∀ i, i ≠ s.tab →
    s1.cwd i = s.cwd i ∧ s1.fsel i = s.fsel i ∧ s1.scroll i = s.scroll i ∧
      s1.flags i = s.flags i

/-! ## Accessor lemmas -/

section accessors
variable (s : rover_t)

@[simp] theorem FSEL_setFSEL (v : Int) : FSEL (setFSEL s v) = v := by simp [FSEL, setFSEL]
@[simp] theorem SCROLL_setFSEL (v : Int) : SCROLL (setFSEL s v) = SCROLL s := rfl
@[simp] theorem FLAGS_setFSEL (v : Int) : FLAGS (setFSEL s v) = FLAGS s := rfl
@[simp] theorem CWD_setFSEL (v : Int) : CWD (setFSEL s v) = CWD s := rfl
@[simp] theorem tab_setFSEL (v : Int) : (setFSEL s v).tab = s.tab := rfl
@[simp] theorem nfiles_setFSEL (v : Int) : (setFSEL s v).nfiles = s.nfiles := rfl
@[simp] theorem rows_setFSEL (v : Int) : (setFSEL s v).rows = s.rows := rfl
@[simp] theorem FSEL_setSCROLL (v : Int) : FSEL (setSCROLL s v) = FSEL s := rfl
@[simp] theorem SCROLL_setSCROLL (v : Int) : SCROLL (setSCROLL s v) = v := by simp [SCROLL, setSCROLL]
@[simp] theorem FLAGS_setSCROLL (v : Int) : FLAGS (setSCROLL s v) = FLAGS s := rfl
@[simp] theorem CWD_setSCROLL (v : Int) : CWD (setSCROLL s v) = CWD s := rfl
@[simp] theorem tab_setSCROLL (v : Int) : (setSCROLL s v).tab = s.tab := rfl
@[simp] theorem nfiles_setSCROLL (v : Int) : (setSCROLL s v).nfiles = s.nfiles := rfl
@[simp] theorem rows_setSCROLL (v : Int) : (setSCROLL s v).rows = s.rows := rfl
@[simp] theorem FSEL_setFLAGS (v : Nat) : FSEL (setFLAGS s v) = FSEL s := rfl
@[simp] theorem SCROLL_setFLAGS (v : Nat) : SCROLL (setFLAGS s v) = SCROLL s := rfl
@[simp] theorem tab_setFLAGS (v : Nat) : (setFLAGS s v).tab = s.tab := rfl
@[simp] theorem nfiles_setFLAGS (v : Nat) : (setFLAGS s v).nfiles = s.nfiles := rfl
@[simp] theorem rows_setFLAGS (v : Nat) : (setFLAGS s v).rows = s.rows := rfl
@[simp] theorem FSEL_setCWD (v : List Char) : FSEL (setCWD s v) = FSEL s := rfl
@[simp] theorem SCROLL_setCWD (v : List Char) : SCROLL (setCWD s v) = SCROLL s := rfl
@[simp] theorem FLAGS_setCWD (v : List Char) : FLAGS (setCWD s v) = FLAGS s := rfl
@[simp] theorem CWD_setCWD (v : List Char) : CWD (setCWD s v) = v := by simp [CWD, setCWD]
@[simp] theorem tab_setCWD (v : List Char) : (setCWD s v).tab = s.tab := rfl
@[simp] theorem nfiles_setCWD (v : List Char) : (setCWD s v).nfiles = s.nfiles := rfl
@[simp] theorem rows_setCWD (v : List Char) : (setCWD s v).rows = s.rows := rfl
@[simp] theorem FSEL_set_nfiles (v : Int) : FSEL (set_nfiles s v) = FSEL s := rfl
@[simp] theorem SCROLL_set_nfiles (v : Int) : SCROLL (set_nfiles s v) = SCROLL s := rfl
@[simp] theorem FLAGS_set_nfiles (v : Int) : FLAGS (set_nfiles s v) = FLAGS s := rfl
@[simp] theorem CWD_set_nfiles (v : Int) : CWD (set_nfiles s v) = CWD s := rfl
@[simp] theorem tab_set_nfiles (v : Int) : (set_nfiles s v).tab = s.tab := rfl
@[simp] theorem nfiles_set_nfiles (v : Int) : (set_nfiles s v).nfiles = v := rfl
@[simp] theorem rows_set_nfiles (v : Int) : (set_nfiles s v).rows = s.rows := rfl
@[simp] theorem FSEL_set_rows (v : List row_t) : FSEL (set_rows s v) = FSEL s := rfl
@[simp] theorem SCROLL_set_rows (v : List row_t) : SCROLL (set_rows s v) = SCROLL s := rfl
@[simp] theorem FLAGS_set_rows (v : List row_t) : FLAGS (set_rows s v) = FLAGS s := rfl
@[simp] theorem CWD_set_rows (v : List row_t) : CWD (set_rows s v) = CWD s := rfl
@[simp] theorem tab_set_rows (v : List row_t) : (set_rows s v).tab = s.tab := rfl
@[simp] theorem nfiles_set_rows (v : List row_t) : (set_rows s v).nfiles = s.nfiles := rfl
@[simp] theorem rows_set_rows (v : List row_t) : (set_rows s v).rows = v := rfl

end accessors

theorem dispatch_down (w : world) (m : machine) :
    dispatch w m (chr 'j') = some { m with rover := key_down m.LINES m.rover } := rfl

theorem dispatch_up (w : world) (m : machine) :
    dispatch w m (chr 'k') = some { m with rover := key_up m.LINES m.rover } := rfl

theorem key_down_inv (L : Int) (s : rover_t) (hn : 1 ≤ s.nfiles)
    (h0 : 0 ≤ FSEL s) (h1 : FSEL s < s.nfiles) (h2 : SCROLL s ≤ FSEL s)
    (h3 : FSEL s ≤ SCROLL s + HEIGHT L - 1) :
    (key_down L s).nfiles = s.nfiles ∧ 0 ≤ FSEL (key_down L s) ∧
      FSEL (key_down L s) < s.nfiles ∧ SCROLL (key_down L s) ≤ FSEL (key_down L s) ∧
      FSEL (key_down L s) ≤ SCROLL (key_down L s) + HEIGHT L - 1 := by
  unfold key_down
  dsimp only
  split_ifs <;> simp_all <;> omega

theorem key_up_inv (L : Int) (s : rover_t) (hn : 1 ≤ s.nfiles)
    (h0 : 0 ≤ FSEL s) (h1 : FSEL s < s.nfiles) (h2 : SCROLL s ≤ FSEL s)
    (h3 : FSEL s ≤ SCROLL s + HEIGHT L - 1) :
    (key_up L s).nfiles = s.nfiles ∧ 0 ≤ FSEL (key_up L s) ∧
      FSEL (key_up L s) < s.nfiles ∧ SCROLL (key_up L s) ≤ FSEL (key_up L s) ∧
      FSEL (key_up L s) ≤ SCROLL (key_up L s) + HEIGHT L - 1 := by
  unfold key_up
  dsimp only
  split_ifs <;> simp_all <;> omega

theorem keyname_j (w : world) : keyname w (chr 'j') = RVK_DOWN := rfl
theorem keyname_k (w : world) : keyname w (chr 'k') = RVK_UP := rfl

theorem main_loop_down (w : world) (m : machine) (rest : List event) (hm : m.search = none) :
    main_loop w m (event.key (chr 'j') :: rest)
      = main_loop w { m with rover := key_down m.LINES m.rover } rest := by
  have hq : quits w m (event.key (chr 'j')) = false := by
    simp [quits, keyname_j, RVK_DOWN, RVK_QUIT]
  simp [main_loop, hq, step, hm, dispatch_down]

theorem main_loop_up (w : world) (m : machine) (rest : List event) (hm : m.search = none) :
    main_loop w m (event.key (chr 'k') :: rest)
      = main_loop w { m with rover := key_up m.LINES m.rover } rest := by
  have hq : quits w m (event.key (chr 'k')) = false := by
    simp [quits, keyname_k, RVK_UP, RVK_QUIT]
  simp [main_loop, hq, step, hm, dispatch_up]

/-- C1: from a state of a non-empty listing with the cursor inside the listing
and inside the visible window, every finite sequence of `RVK_DOWN` and `RVK_UP`
keys runs to a state with the same entry count where `0 <= FSEL < nfiles` and
`SCROLL <= FSEL <= SCROLL + HEIGHT - 1` still hold. -/
theorem C1_single_steps_keep_cursor_in_window (w : world) (keys : List event) (m : machine)
    (hkeys : ∀ e ∈ keys, e = event.key (chr 'j') ∨ e = event.key (chr 'k'))
    (hmode : m.search = none) (hH : 1 ≤ HEIGHT m.LINES) (hn : 1 ≤ m.rover.nfiles)
    (h0 : 0 ≤ FSEL m.rover) (h1 : FSEL m.rover < m.rover.nfiles)
    (h2 : SCROLL m.rover ≤ FSEL m.rover)
    (h3 : FSEL m.rover ≤ SCROLL m.rover + HEIGHT m.LINES - 1) :
    ∃ m1, main_loop w m keys = some m1 ∧ m1.LINES = m.LINES ∧
      m1.rover.nfiles = m.rover.nfiles ∧
      0 ≤ FSEL m1.rover ∧ FSEL m1.rover < m1.rover.nfiles ∧
      SCROLL m1.rover ≤ FSEL m1.rover ∧
      FSEL m1.rover ≤ SCROLL m1.rover + HEIGHT m1.LINES - 1 := by
  induction keys generalizing m with
  | nil => exact ⟨m, rfl, rfl, rfl, h0, h1, h2, h3⟩
  | cons e rest ih =>
    have hrest : ∀ e ∈ rest, e = event.key (chr 'j') ∨ e = event.key (chr 'k') :=
      fun e he => hkeys e (List.mem_cons_of_mem _ he)
    rcases hkeys e (List.mem_cons_self _ _) with rfl | rfl
    · obtain ⟨k1, k2, k3, k4, k5⟩ := key_down_inv m.LINES m.rover hn h0 h1 h2 h3
      rw [main_loop_down w m rest hmode]
      obtain ⟨m1, r1, r2, r3, r4⟩ :=
        ih { m with rover := key_down m.LINES m.rover } hrest hmode hH
          (by simpa [k1] using hn) k2 (by simpa [k1] using k3) k4 k5
      exact ⟨m1, r1, r2, by simpa [k1] using r3, r4⟩
    · obtain ⟨k1, k2, k3, k4, k5⟩ := key_up_inv m.LINES m.rover hn h0 h1 h2 h3
      rw [main_loop_up w m rest hmode]
      obtain ⟨m1, r1, r2, r3, r4⟩ :=
        ih { m with rover := key_up m.LINES m.rover } hrest hmode hH
          (by simpa [k1] using hn) k2 (by simpa [k1] using k3) k4 k5
      exact ⟨m1, r1, r2, by simpa [k1] using r3, r4⟩

theorem step_browse (w : world) (m : machine) (ch : Int) (hm : m.search = none) :
    step w m (event.key ch) = dispatch w m ch := by
  simp [step, hm]

theorem dispatch_jump_down (w : world) (m : machine) :
    dispatch w m (chr 'J') = some { m with rover := key_jump_down m.LINES m.rover } := rfl

theorem dispatch_jump_up (w : world) (m : machine) :
    dispatch w m (chr 'K') = some { m with rover := key_jump_up m.rover } := rfl

/-- C2: on a non-empty listing, `RVK_UP` with `FSEL = 0` sets `FSEL = nfiles - 1`
and `SCROLL = max(0, nfiles - HEIGHT)`, and `RVK_DOWN` with `FSEL = nfiles - 1`
sets `FSEL = 0` and `SCROLL = 0`. -/
theorem C2_single_step_wraps (w : world) (m : machine) (hmode : m.search = none)
    (hn : 1 ≤ m.rover.nfiles) :
    (FSEL m.rover = 0 →
      ∃ m1, step w m (event.key (chr 'k')) = some m1 ∧
        FSEL m1.rover = m.rover.nfiles - 1 ∧
        SCROLL m1.rover = max 0 (m.rover.nfiles - HEIGHT m.LINES)) ∧
    (FSEL m.rover = m.rover.nfiles - 1 →
      ∃ m1, step w m (event.key (chr 'j')) = some m1 ∧
        FSEL m1.rover = 0 ∧ SCROLL m1.rover = 0) := by
  have hn0 : m.rover.nfiles ≠ 0 := by omega
  constructor
  · intro h
    refine ⟨_, by rw [step_browse w m _ hmode, dispatch_up], ?_, ?_⟩
    · simp only [key_up, hn0, h, if_true, if_false]
      split_ifs <;> simp
    · simp only [key_up, hn0, h, if_true, if_false]
      split_ifs <;> simp_all <;> omega
  · intro h
    refine ⟨_, by rw [step_browse w m _ hmode, dispatch_down], ?_, ?_⟩
    · simp [key_down, hn0, h]
    · simp [key_down, hn0, h]

/-- C3: on a non-empty listing with a valid `FSEL`, `RVK_JUMP_DOWN` sets
`FSEL = min(FSEL + RV_JUMP, nfiles - 1)` and `RVK_JUMP_UP` sets
`FSEL = max(FSEL - RV_JUMP, 0)`, with `RV_JUMP = 10`; a jump down never lowers
`FSEL` and a jump up never raises it (no wrap-around), and a jump down from
`FSEL = 0` over 5 entries gives `FSEL = 4`. -/
theorem C3_jump_clamps (w : world) (m : machine) (hmode : m.search = none)
    (hn : 1 ≤ m.rover.nfiles) (h0 : 0 ≤ FSEL m.rover) (h1 : FSEL m.rover < m.rover.nfiles) :
    RV_JUMP = 10 ∧
    (∃ m1, step w m (event.key (chr 'J')) = some m1 ∧
      FSEL m1.rover = min (FSEL m.rover + RV_JUMP) (m.rover.nfiles - 1) ∧
      FSEL m.rover ≤ FSEL m1.rover ∧
      (m.rover.nfiles = 5 → FSEL m.rover = 0 → FSEL m1.rover = 4)) ∧
    (∃ m1, step w m (event.key (chr 'K')) = some m1 ∧
      FSEL m1.rover = max (FSEL m.rover - RV_JUMP) 0 ∧
      FSEL m1.rover ≤ FSEL m.rover) := by
  have hn0 : m.rover.nfiles ≠ 0 := by omega
  have hd : FSEL (key_jump_down m.LINES m.rover)
      = min (FSEL m.rover + RV_JUMP) (m.rover.nfiles - 1) := by
    simp only [key_jump_down, hn0, if_false]
    split_ifs <;> simp_all [RV_JUMP] <;> omega
  have hu : FSEL (key_jump_up m.rover) = max (FSEL m.rover - RV_JUMP) 0 := by
    simp only [key_jump_up, hn0, if_false]
    split_ifs <;> simp_all [RV_JUMP] <;> omega
  refine ⟨rfl, ⟨_, by rw [step_browse w m _ hmode, dispatch_jump_down], hd, ?_, ?_⟩,
    ⟨_, by rw [step_browse w m _ hmode, dispatch_jump_up], hu, ?_⟩⟩
  · show FSEL m.rover ≤ FSEL (key_jump_down m.LINES m.rover)
    rw [hd]; simp only [RV_JUMP]; omega
  · intro h5 hz
    show FSEL (key_jump_down m.LINES m.rover) = 4
    rw [hd, h5, hz]; decide
  · show FSEL (key_jump_up m.rover) ≤ FSEL m.rover
    rw [hu]; simp only [RV_JUMP]; omega

theorem C1_single_steps_keep_cursor_in_window_witness :
    (1 ≤ HEIGHT sample_machine.LINES ∧ 1 ≤ sample_machine.rover.nfiles) ∧
    ∃ m1, main_loop sample_world sample_machine
        [event.key (chr 'k'), event.key (chr 'j'), event.key (chr 'j')] = some m1 ∧
      m1.LINES = sample_machine.LINES ∧
      m1.rover.nfiles = sample_machine.rover.nfiles ∧
      0 ≤ FSEL m1.rover ∧ FSEL m1.rover < m1.rover.nfiles ∧
      SCROLL m1.rover ≤ FSEL m1.rover ∧
      FSEL m1.rover ≤ SCROLL m1.rover + HEIGHT m1.LINES - 1 :=
  ⟨by decide,
    C1_single_steps_keep_cursor_in_window sample_world
      [event.key (chr 'k'), event.key (chr 'j'), event.key (chr 'j')] sample_machine
      (by decide) (by decide) (by decide) (by decide) (by decide) (by decide) (by decide)
      (by decide)⟩

theorem C2_single_step_wraps_witness :
    (sample_machine.search = none ∧ sample_machine.rover.nfiles = 4 ∧
      FSEL sample_machine.rover = 0) ∧
    ((FSEL sample_machine.rover = 0 →
      ∃ m1, step sample_world sample_machine (event.key (chr 'k')) = some m1 ∧
        FSEL m1.rover = sample_machine.rover.nfiles - 1 ∧
        SCROLL m1.rover = max 0 (sample_machine.rover.nfiles - HEIGHT sample_machine.LINES)) ∧
    (FSEL sample_machine.rover = sample_machine.rover.nfiles - 1 →
      ∃ m1, step sample_world sample_machine (event.key (chr 'j')) = some m1 ∧
        FSEL m1.rover = 0 ∧ SCROLL m1.rover = 0)) :=
  ⟨by decide, C2_single_step_wraps sample_world sample_machine (by decide) (by decide)⟩

theorem C3_jump_clamps_witness :
    (sample_hidden.rover.nfiles = 5 ∧ FSEL sample_hidden.rover = 0) ∧
    (RV_JUMP = 10 ∧
    (∃ m1, step sample_world sample_hidden (event.key (chr 'J')) = some m1 ∧
      FSEL m1.rover = min (FSEL sample_hidden.rover + RV_JUMP)
        (sample_hidden.rover.nfiles - 1) ∧
      FSEL sample_hidden.rover ≤ FSEL m1.rover ∧
      (sample_hidden.rover.nfiles = 5 → FSEL sample_hidden.rover = 0 →
        FSEL m1.rover = 4)) ∧
    (∃ m1, step sample_world sample_hidden (event.key (chr 'K')) = some m1 ∧
      FSEL m1.rover = max (FSEL sample_hidden.rover - RV_JUMP) 0 ∧
      FSEL m1.rover ≤ FSEL sample_hidden.rover)) :=
  ⟨by decide,
    C3_jump_clamps sample_world sample_hidden (by decide) (by decide) (by decide)
      (by decide)⟩


/-! ## String functions -/

theorem strncmp_eq_zero_iff_take (n : Nat) :
    ∀ a b : List Char, strncmp a b n = 0 ↔ a.take n = b.take n := by
  induction n with
  | zero => intro a b; simp [strncmp]
  | succ n ih =>
    intro a b
    cases a with
    | nil => cases b <;> simp [strncmp]
    | cons x s =>
      cases b with
      | nil => simp [strncmp]
      | cons c t =>
        simp only [strncmp, List.take_succ_cons, List.cons.injEq]
        by_cases hxc : x = c
        · simpa [hxc] using ih s t
        · simp only [hxc, if_false, false_and, iff_false]
          split_ifs <;> decide

theorem prefix_iff_strncmp_zero (name q : List Char) :
    strncmp name q q.length = 0 ↔ q <+: name := by
  rw [strncmp_eq_zero_iff_take, List.prefix_iff_eq_take, List.take_length]
  exact eq_comm

theorem strcmp_eq_zero_iff : ∀ a b : List Char, strcmp a b = 0 ↔ a = b := by
  intro a
  induction a with
  | nil => intro b; cases b <;> simp [strcmp]
  | cons x s ih =>
    intro b
    cases b with
    | nil => simp [strcmp]
    | cons c t =>
      simp only [strcmp, List.cons.injEq]
      by_cases hxc : x = c
      · simpa [hxc] using ih t
      · simp only [hxc, if_false, false_and, iff_false]
        split_ifs <;> decide

/-! ## Search -/

theorem search_scan_spec (rows : List row_t) (q : List Char) :
    ∀ k sel : Nat, sel + k ≤ rows.length →
      ∃ n, search_scan rows q k sel = some n ∧ sel ≤ n ∧ n ≤ sel + k ∧
        (∀ j r, sel ≤ j → j < n → rows[j]? = some r → ¬ q <+: r.name) ∧
        (n < sel + k → ∃ r, rows[n]? = some r ∧ q <+: r.name) := by
  intro k
  induction k with
  | zero =>
    intro sel _
    exact ⟨sel, rfl, le_refl _, le_refl _, fun j r h1 h2 => by omega, fun h => by omega⟩
  | succ k ih =>
    intro sel hlen
    have hsel : sel < rows.length := by omega
    obtain ⟨r, hr⟩ : ∃ r, rows[sel]? = some r :=
      ⟨rows[sel], List.getElem?_eq_getElem hsel⟩
    by_cases hp : q <+: r.name
    · refine ⟨sel, ?_, le_refl _, by omega, fun j r h1 h2 => by omega, fun _ => ⟨r, hr, hp⟩⟩
      simp [search_scan, hr, (prefix_iff_strncmp_zero r.name q).2 hp]
    · obtain ⟨n, h1, h2, h3, h4, h5⟩ := ih (sel + 1) (by omega)
      refine ⟨n, ?_, by omega, by omega, ?_, fun h => h5 (by omega)⟩
      · simp [search_scan, hr, (prefix_iff_strncmp_zero r.name q).not.2 hp, h1]
      · intro j r1 hj1 hj2 hj3
        by_cases hj : j = sel
        · subst hj
          rw [hr] at hj3
          cases hj3
          exact hp
        · exact h4 j r1 (by omega) hj2 hj3


theorem step_search (w : world) (m : machine) (ss : search_t) (ch : Int)
    (hm : m.search = some ss) :
    step w m (event.key ch) = (search_key w m.LINES m.rover ss ch).map
      (fun r => { m with rover := r.1, search := r.2 }) := by
  simp [step, hm]

/-- C4: a search keystroke that leaves the non-empty query `q`, over a listing
of `nfiles = length rows` rows: when some row name has `q` as a prefix, `FSEL`
becomes the lowest index whose name has that prefix; when none has, `FSEL` and
`SCROLL` stay as they were. -/
theorem C4_search_selects_first_match (w : world) (m : machine) (ss : search_t) (ch : Int)
    (q : List Char) (hmode : m.search = some ss)
    (hrows : m.rover.nfiles = m.rover.rows.length)
    (hkey : igetstr w ss.SEARCH SEARCHSZ ch = (1, q)) (hq : q ≠ []) :
    ∃ m1, step w m (event.key ch) = some m1 ∧
      m1.search = some { ss with SEARCH := q } ∧
      ((∃ r ∈ m.rover.rows, q <+: r.name) →
        ∃ (i : Nat) (r : row_t), FSEL m1.rover = i ∧ m.rover.rows[i]? = some r ∧
          q <+: r.name ∧
          ∀ (j : Nat) (r1 : row_t), j < i → m.rover.rows[j]? = some r1 → ¬ q <+: r1.name) ∧
      ((∀ r ∈ m.rover.rows, ¬ q <+: r.name) →
        FSEL m1.rover = FSEL m.rover ∧ SCROLL m1.rover = SCROLL m.rover) := by
  obtain ⟨n, hn1, -, hn3, hn4, hn5⟩ :=
    search_scan_spec m.rover.rows q m.rover.rows.length 0 (by omega)
  have hlen : q.length ≠ 0 := fun h => hq (List.length_eq_zero.1 h)
  have htoNat : m.rover.nfiles.toNat = m.rover.rows.length := by omega
  by_cases hlt : n < m.rover.rows.length
  · obtain ⟨r, hr1, hr2⟩ := hn5 (by omega)
    have hlt2 : (n : Int) < m.rover.nfiles := by omega
    have hstep : ∃ m1, step w m (event.key ch) = some m1 ∧
        m1.search = some { ss with SEARCH := q } ∧ FSEL m1.rover = n := by
      rw [step_search w m ss ch hmode]
      simp only [search_key, hkey, htoNat, hn1, hlen, hlt2]
      simp only [one_ne_zero, if_false, ne_eq, not_false_eq_true, if_true]
      split_ifs <;> exact ⟨_, rfl, rfl, by simp⟩
    obtain ⟨m1, e1, e2, e3⟩ := hstep
    refine ⟨m1, e1, e2, fun _ => ⟨n, r, e3, hr1, hr2, fun j r1 hj hj1 => ?_⟩, fun hno => ?_⟩
    · exact hn4 j r1 (Nat.zero_le _) hj hj1
    · exact absurd hr2 (hno r (List.getElem?_mem hr1))
  · have hge : ¬ (n : Int) < m.rover.nfiles := by omega
    refine ⟨{ m with search := some { ss with SEARCH := q } }, ?_, rfl, fun hex => ?_,
      fun _ => ⟨rfl, rfl⟩⟩
    · rw [step_search w m ss ch hmode]
      simp only [search_key, hkey, htoNat, hn1, hlen, hge]
      simp [hq]
    · obtain ⟨r, hr, hp⟩ := hex
      obtain ⟨j, hj, rfl⟩ := List.getElem_of_mem hr
      exact absurd hp (hn4 j _ (Nat.zero_le _) (by omega) (List.getElem?_eq_getElem hj))

theorem C4_search_selects_first_match_witness :
    (sample_search.rover.rows.map row_t.name
        = ["report/".toList, "apple".toList, "readme.txt".toList, "zeta".toList] ∧
      igetstr sample_world ['r'] SEARCHSZ (chr 'e') = (1, "re".toList) ∧
      (step sample_world sample_search (event.key (chr 'e'))).map (fun m1 => FSEL m1.rover)
        = some 0) ∧
    ∃ m1, step sample_world sample_search (event.key (chr 'e')) = some m1 ∧
      m1.search = some { oldsel := 0, oldscroll := 0, SEARCH := "re".toList } ∧
      ((∃ r ∈ sample_search.rover.rows, "re".toList <+: r.name) →
        ∃ (i : Nat) (r : row_t), FSEL m1.rover = i ∧ sample_search.rover.rows[i]? = some r ∧
          "re".toList <+: r.name ∧
          ∀ (j : Nat) (r1 : row_t), j < i → sample_search.rover.rows[j]? = some r1 →
            ¬ "re".toList <+: r1.name) ∧
      ((∀ r ∈ sample_search.rover.rows, ¬ "re".toList <+: r.name) →
        FSEL m1.rover = FSEL sample_search.rover ∧
          SCROLL m1.rover = SCROLL sample_search.rover) :=
  ⟨by decide,
    C4_search_selects_first_match sample_world sample_search
      { oldsel := 0, oldscroll := 0, SEARCH := ['r'] } (chr 'e') "re".toList rfl
      (by decide) (by decide) (by decide)⟩


theorem step_keeps_saved_cursor (w : world) (m m1 : machine) (e : event) (ss ss1 : search_t)
    (hm : m.search = some ss) (hstep : step w m e = some m1) (hm1 : m1.search = some ss1) :
    ss1.oldsel = ss.oldsel ∧ ss1.oldscroll = ss.oldscroll := by
  cases e with
  | winch lines =>
    simp only [step, handle_winch, Option.map_eq_some'] at hstep
    obtain ⟨s1, _, hs1⟩ := hstep
    subst hs1
    simp only [hm, Option.some.injEq] at hm1
    subst hm1
    exact ⟨rfl, rfl⟩
  | key ch =>
    rw [step_search w m ss ch hm] at hstep
    simp only [search_key] at hstep
    split_ifs at hstep
    all_goals first
      | (simp only [Option.map_some', Option.some.injEq] at hstep
         subst hstep
         simp only [Option.some.injEq] at hm1
         first
           | (subst hm1; exact ⟨rfl, rfl⟩)
           | exact absurd hm1 (by simp))
      | (split at hstep
         · simp at hstep
         · split_ifs at hstep
           all_goals
             simp only [Option.map_some', Option.some.injEq] at hstep
             subst hstep
             simp only [Option.some.injEq] at hm1
             subst hm1
             exact ⟨rfl, rfl⟩)

theorem session_run_keeps_saved_cursor (w : world) (es : List event) :
    ∀ (m m1 : machine) (ss ss1 : search_t), m.search = some ss →
      session_run w m es = some m1 → m1.search = some ss1 →
      ss1.oldsel = ss.oldsel ∧ ss1.oldscroll = ss.oldscroll := by
  induction es with
  | nil =>
    intro m m1 ss ss1 hm hrun hm1
    simp only [session_run, hm, Option.isSome_some, if_true, Option.some.injEq] at hrun
    subst hrun
    rw [hm] at hm1
    cases hm1
    exact ⟨rfl, rfl⟩
  | cons e rest ih =>
    intro m m1 ss ss1 hm hrun hm1
    simp only [session_run, hm, Option.isSome_some, if_true] at hrun
    cases hstep : step w m e with
    | none => simp [hstep] at hrun
    | some m2 =>
      simp only [hstep] at hrun
      cases hm2 : m2.search with
      | none =>
        cases rest <;> simp [session_run, hm2] at hrun
      | some ss2 =>
        obtain ⟨a1, a2⟩ := step_keeps_saved_cursor w m m2 e ss ss2 hm hstep hm2
        obtain ⟨b1, b2⟩ := ih m2 m1 ss2 ss1 hm2 hrun hm1
        exact ⟨b1.trans a1, b2.trans a2⟩

theorem dispatch_search (w : world) (m : machine) :
    dispatch w m (chr '/') = some { m with search := key_search m.rover } := rfl

/-- C5: in a search session started by `RVK_SEARCH` in state `m0` and still
running after the events `es`, a keystroke after which `igetstr` leaves the
query empty is handled and sets `FSEL` and `SCROLL` to their values in `m0`. -/
theorem C5_empty_query_restores_cursor (w : world) (m0 ms m1 : machine) (es : List event)
    (ss : search_t) (ch : Int) (hbrowse : m0.search = none)
    (hstart : step w m0 (event.key (chr '/')) = some ms)
    (hrun : session_run w ms es = some m1) (hss : m1.search = some ss)
    (hempty : igetstr w ss.SEARCH SEARCHSZ ch = (1, [])) :
    ∃ m2, step w m1 (event.key ch) = some m2 ∧
      m2.search = some { ss with SEARCH := [] } ∧
      FSEL m2.rover = FSEL m0.rover ∧ SCROLL m2.rover = SCROLL m0.rover := by
  rw [step_browse w m0 _ hbrowse, dispatch_search, Option.some.injEq] at hstart
  subst hstart
  have hstarted : ∃ s0, key_search m0.rover = some s0 := by
    cases hk : key_search m0.rover with
    | none => cases es <;> simp [session_run, hk] at hrun
    | some s0 => exact ⟨s0, rfl⟩
  obtain ⟨s0, hs0⟩ := hstarted
  have hsaved : s0.oldsel = FSEL m0.rover ∧ s0.oldscroll = SCROLL m0.rover := by
    unfold key_search at hs0
    split_ifs at hs0
    cases hs0
    exact ⟨rfl, rfl⟩
  obtain ⟨k1, k2⟩ := session_run_keeps_saved_cursor w es _ m1 s0 ss hs0 hrun hss
  refine ⟨{ m1 with rover := setSCROLL (setFSEL m1.rover ss.oldsel) ss.oldscroll,
                    search := some { ss with SEARCH := [] } }, ?_, rfl, ?_, ?_⟩
  · rw [step_search w m1 ss ch hss]
    simp [search_key, hempty]
  · simp [k1, hsaved.1]
  · simp [k2, hsaved.2]

theorem C5_empty_query_restores_cursor_witness :
    (FSEL sample_found.rover = 3 ∧ FSEL sample_machine.rover = 0 ∧
      igetstr sample_world ['z'] SEARCHSZ 127 = (1, [])) ∧
    ∃ m2, step sample_world sample_found (event.key 127) = some m2 ∧
      m2.search = some { oldsel := 0, oldscroll := 0, SEARCH := [] } ∧
      FSEL m2.rover = FSEL sample_machine.rover ∧
      SCROLL m2.rover = SCROLL sample_machine.rover :=
  ⟨by decide,
    C5_empty_query_restores_cursor sample_world sample_machine sample_start sample_found
      [event.key (chr 'z')] { oldsel := 0, oldscroll := 0, SEARCH := ['z'] } 127
      rfl rfl rfl rfl (by decide)⟩



/-! ## Listing engine -/

theorem ls_rows_eq_filter_map (flags : Nat) (dp : List dirent) :
    ls_rows flags dp = (dp.filter (spec_listed flags)).map spec_entry := by
  induction dp with
  | nil => rfl
  | cons ep rest ih =>
    simp only [ls_rows, strcmp_eq_zero_iff, ih, List.filter_cons, spec_listed]
    by_cases h1 : ep.d_name = ['.']
    · simp [h1]
    by_cases h2 : ep.d_name = ['.', '.']
    · simp [h2]
    by_cases h5 : ep.isdir = true
    · by_cases h3 : ep.d_name.head? = some '.' <;>
        by_cases h4 : flags &&& SHOW_HIDDEN = 0 <;>
        by_cases h6 : flags &&& SHOW_DIRS = 0 <;>
        simp [h1, h2, h3, h4, h5, h6, spec_entry]
    · by_cases h3 : ep.d_name.head? = some '.' <;>
        by_cases h4 : flags &&& SHOW_HIDDEN = 0 <;>
        by_cases h6 : flags &&& SHOW_FILES = 0 <;>
        simp [h1, h2, h3, h4, h5, h6, spec_entry]

theorem qsort_perm {α : Type} (cmp : α → α → Int) (l : List α) : (qsort cmp l).Perm l :=
  List.perm_insertionSort _ l

/-- C6: for a directory that opens with the children `dp`, `ls` stores a
rearrangement of the entries of exactly the children that the filter mask shows
(`spec_listed`), each child giving one entry (`spec_entry`: directory name plus
`'/'`, or file name with its size), and returns the number of these children. -/
theorem C6_ls_lists_exactly_the_filtered_children (w : world) (path : List Char)
    (flags : Nat) (dp : List dirent) (hopen : w.opendir path = some dp) :
    ∃ rows, ls w path flags = (((dp.filter (spec_listed flags)).length : Int), some rows) ∧
      rows.Perm ((dp.filter (spec_listed flags)).map spec_entry) := by
  refine ⟨qsort (rowcmp w) (ls_rows flags dp), ?_, ?_⟩
  · simp only [ls, hopen]
    rw [(qsort_perm _ _).length_eq, ls_rows_eq_filter_map, List.length_map]
  · rw [← ls_rows_eq_filter_map]
    exact qsort_perm _ _

theorem C6_ls_lists_exactly_the_filtered_children_witness :
    ((sample_dir.filter (spec_listed 3)).map spec_entry
      = [ { name := "zeta".toList, size := some 7 },
          { name := "apple".toList, size := some 12 },
          { name := "report/".toList, size := none },
          { name := "readme.txt".toList, size := some 300 } ]) ∧
    ∃ rows, ls sample_world "/home/".toList 3
        = (((sample_dir.filter (spec_listed 3)).length : Int), some rows) ∧
      rows.Perm ((sample_dir.filter (spec_listed 3)).map spec_entry) :=
  ⟨by decide,
    C6_ls_lists_exactly_the_filtered_children sample_world "/home/".toList 3 sample_dir rfl⟩



theorem rowcmp_dir_file (w : world) (a b : row_t) (ha : '/' ∈ a.name) (hb : '/' ∉ b.name) :
    rowcmp w a b = -1 := by
  simp [rowcmp, ha, hb]

theorem rowcmp_file_dir (w : world) (a b : row_t) (ha : '/' ∉ a.name) (hb : '/' ∈ b.name) :
    rowcmp w a b = 1 := by
  simp [rowcmp, ha, hb]

theorem rowcmp_same_class (w : world) (a b : row_t) (h : '/' ∈ a.name ↔ '/' ∈ b.name) :
    rowcmp w a b = w.strcoll a.name b.name := by
  by_cases ha : '/' ∈ a.name
  · simp [rowcmp, ha, h.1 ha]
  · have hb : '/' ∉ b.name := fun hb => ha (h.2 hb)
    simp [rowcmp, ha, hb]

/-- C8: with a collation that is a strict total order on names, `rowcmp` puts
every directory row (name with `'/'`) before every file row, flips its sign when
its arguments are swapped, is transitive, and is `0` only between rows of the
same name. -/
theorem C8_rowcmp_strict_total_order (w : world) (hcoll : collation_total_order w.strcoll)
    (a b c : row_t) :
    ('/' ∈ a.name → '/' ∉ b.name → rowcmp w a b < 0) ∧
    Int.sign (rowcmp w a b) = - Int.sign (rowcmp w b a) ∧
    (rowcmp w a b < 0 → rowcmp w b c < 0 → rowcmp w a c < 0) ∧
    (rowcmp w a b = 0 → a.name = b.name) := by
  obtain ⟨hanti, htrans, hzero⟩ := hcoll
  refine ⟨fun ha hb => by rw [rowcmp_dir_file w a b ha hb]; decide, ?_, ?_, ?_⟩
  · by_cases ha : '/' ∈ a.name <;> by_cases hb : '/' ∈ b.name
    · rw [rowcmp_same_class w a b (by simp [ha, hb]), rowcmp_same_class w b a (by simp [ha, hb])]
      exact hanti _ _
    · rw [rowcmp_dir_file w a b ha hb, rowcmp_file_dir w b a hb ha]; decide
    · rw [rowcmp_file_dir w a b ha hb, rowcmp_dir_file w b a hb ha]; decide
    · rw [rowcmp_same_class w a b (by simp [ha, hb]), rowcmp_same_class w b a (by simp [ha, hb])]
      exact hanti _ _
  · intro hab hbc
    by_cases ha : '/' ∈ a.name <;> by_cases hb : '/' ∈ b.name <;> by_cases hc : '/' ∈ c.name
    · rw [rowcmp_same_class w a b (by simp [ha, hb])] at hab
      rw [rowcmp_same_class w b c (by simp [hb, hc])] at hbc
      rw [rowcmp_same_class w a c (by simp [ha, hc])]
      exact htrans _ _ _ hab hbc
    · rw [rowcmp_dir_file w a c ha hc]; decide
    · rw [rowcmp_file_dir w b c hb hc] at hbc; exact absurd hbc (by decide)
    · rw [rowcmp_dir_file w a c ha hc]; decide
    · rw [rowcmp_file_dir w a b ha hb] at hab; exact absurd hab (by decide)
    · rw [rowcmp_file_dir w a b ha hb] at hab; exact absurd hab (by decide)
    · rw [rowcmp_file_dir w b c hb hc] at hbc; exact absurd hbc (by decide)
    · rw [rowcmp_same_class w a b (by simp [ha, hb])] at hab
      rw [rowcmp_same_class w b c (by simp [hb, hc])] at hbc
      rw [rowcmp_same_class w a c (by simp [ha, hc])]
      exact htrans _ _ _ hab hbc
  · intro h0
    by_cases ha : '/' ∈ a.name <;> by_cases hb : '/' ∈ b.name
    · rw [rowcmp_same_class w a b (by simp [ha, hb])] at h0
      exact (hzero _ _).1 h0
    · rw [rowcmp_dir_file w a b ha hb] at h0; exact absurd h0 (by decide)
    · rw [rowcmp_file_dir w a b ha hb] at h0; exact absurd h0 (by decide)
    · rw [rowcmp_same_class w a b (by simp [ha, hb])] at h0
      exact (hzero _ _).1 h0


theorem char_toNat_ne (a b : Char) (h : a ≠ b) : a.toNat ≠ b.toNat := by
  intro h1
  apply h
  rw [← Char.ofNat_toNat a, ← Char.ofNat_toNat b, h1]

theorem strcmp_swap : ∀ a b : List Char, Int.sign (strcmp a b) = - Int.sign (strcmp b a) := by
  intro a
  induction a with
  | nil => intro b; cases b <;> simp [strcmp]
  | cons x s ih =>
    intro b
    cases b with
    | nil => simp [strcmp]
    | cons y t =>
      by_cases hxy : x = y
      · subst hxy
        simpa [strcmp] using ih t
      · have h1 := char_toNat_ne x y hxy
        have hyx : ¬ y = x := fun h => hxy h.symm
        simp only [strcmp, hxy, hyx, if_false]
        by_cases hlt : x.toNat < y.toNat
        · have h2 : ¬ y.toNat < x.toNat := by omega
          simp [hlt, h2]
        · have h2 : y.toNat < x.toNat := by omega
          simp [hlt, h2]

theorem strcmp_trans : ∀ a b c : List Char,
    strcmp a b < 0 → strcmp b c < 0 → strcmp a c < 0 := by
  intro a
  induction a with
  | nil =>
    intro b c hab hbc
    cases b with
    | nil => simp [strcmp] at hab
    | cons y t =>
      cases c with
      | nil => simp [strcmp] at hbc
      | cons z u => simp [strcmp]
  | cons x s ih =>
    intro b c hab hbc
    cases b with
    | nil => simp [strcmp] at hab
    | cons y t =>
      cases c with
      | nil => simp [strcmp] at hbc
      | cons z u =>
        simp only [strcmp] at hab hbc ⊢
        by_cases hxy : x = y
        · subst hxy
          by_cases hxz : x = z
          · subst hxz
            simp only [if_true] at hab hbc ⊢
            exact ih t u hab hbc
          · simp only [hxz, if_false] at hbc ⊢
            simp only [if_true] at hab
            exact hbc
        · simp only [hxy, if_false] at hab
          have hlt1 : x.toNat < y.toNat := by
            by_contra hn
            simp [hn] at hab
          by_cases hyz : y = z
          · subst hyz
            simp [hxy, hlt1]
          · simp only [hyz, if_false] at hbc
            have hlt2 : y.toNat < z.toNat := by
              by_contra hn
              simp [hn] at hbc
            have hxz : x ≠ z := by
              intro h
              subst h
              omega
            have hlt3 : x.toNat < z.toNat := by omega
            simp [hxz, hlt3]

theorem strcmp_total_order : collation_total_order strcmp :=
  ⟨strcmp_swap, strcmp_trans, strcmp_eq_zero_iff⟩

theorem C8_rowcmp_strict_total_order_witness :
    collation_total_order sample_world.strcoll ∧
    (('/' ∈ "report/".toList → '/' ∉ "apple".toList →
      rowcmp sample_world { name := "report/".toList, size := none }
        { name := "apple".toList, size := some 12 } < 0) ∧
    Int.sign (rowcmp sample_world { name := "report/".toList, size := none }
        { name := "apple".toList, size := some 12 })
      = - Int.sign (rowcmp sample_world { name := "apple".toList, size := some 12 }
        { name := "report/".toList, size := none }) ∧
    (rowcmp sample_world { name := "report/".toList, size := none }
        { name := "apple".toList, size := some 12 } < 0 →
      rowcmp sample_world { name := "apple".toList, size := some 12 }
        { name := "zeta".toList, size := some 7 } < 0 →
      rowcmp sample_world { name := "report/".toList, size := none }
        { name := "zeta".toList, size := some 7 } < 0) ∧
    (rowcmp sample_world { name := "report/".toList, size := none }
        { name := "apple".toList, size := some 12 } = 0 →
      "report/".toList = "apple".toList)) :=
  ⟨strcmp_total_order,
    C8_rowcmp_strict_total_order sample_world strcmp_total_order
      { name := "report/".toList, size := none } { name := "apple".toList, size := some 12 }
      { name := "zeta".toList, size := some 7 }⟩


theorem coll_le_of_swap_pos (coll : List Char → List Char → Int)
    (hcoll : collation_total_order coll) (a b : List Char) (h : 0 < coll a b) :
    coll b a < 0 := by
  have h1 := hcoll.1 a b
  rw [Int.sign_eq_one_of_pos h] at h1
  exact Int.sign_eq_neg_one_iff_neg.1 (by omega)

theorem coll_le_trans (coll : List Char → List Char → Int)
    (hcoll : collation_total_order coll) (a b c : List Char)
    (hab : coll a b ≤ 0) (hbc : coll b c ≤ 0) : coll a c ≤ 0 := by
  rcases lt_or_eq_of_le hab with h1 | h1
  · rcases lt_or_eq_of_le hbc with h2 | h2
    · exact Int.le_of_lt (hcoll.2.1 a b c h1 h2)
    · rw [← (hcoll.2.2 b c).1 h2]; exact hab
  · rw [(hcoll.2.2 a b).1 h1]; exact hbc

theorem rowcmp_le_total (w : world) (hcoll : collation_total_order w.strcoll) (a b : row_t) :
    rowcmp w a b ≤ 0 ∨ rowcmp w b a ≤ 0 := by
  by_cases ha : '/' ∈ a.name <;> by_cases hb : '/' ∈ b.name
  · rw [rowcmp_same_class w a b (by simp [ha, hb]), rowcmp_same_class w b a (by simp [ha, hb])]
    by_cases h : w.strcoll a.name b.name ≤ 0
    · exact Or.inl h
    · exact Or.inr (Int.le_of_lt (coll_le_of_swap_pos _ hcoll _ _ (by omega)))
  · left; rw [rowcmp_dir_file w a b ha hb]; decide
  · right; rw [rowcmp_dir_file w b a hb ha]; decide
  · rw [rowcmp_same_class w a b (by simp [ha, hb]), rowcmp_same_class w b a (by simp [ha, hb])]
    by_cases h : w.strcoll a.name b.name ≤ 0
    · exact Or.inl h
    · exact Or.inr (Int.le_of_lt (coll_le_of_swap_pos _ hcoll _ _ (by omega)))

theorem rowcmp_le_trans (w : world) (hcoll : collation_total_order w.strcoll) (a b c : row_t)
    (hab : rowcmp w a b ≤ 0) (hbc : rowcmp w b c ≤ 0) : rowcmp w a c ≤ 0 := by
  by_cases ha : '/' ∈ a.name <;> by_cases hb : '/' ∈ b.name <;> by_cases hc : '/' ∈ c.name
  · rw [rowcmp_same_class w a b (by simp [ha, hb])] at hab
    rw [rowcmp_same_class w b c (by simp [hb, hc])] at hbc
    rw [rowcmp_same_class w a c (by simp [ha, hc])]
    exact coll_le_trans _ hcoll _ _ _ hab hbc
  · rw [rowcmp_dir_file w a c ha hc]; decide
  · rw [rowcmp_file_dir w b c hb hc] at hbc; exact absurd hbc (by decide)
  · rw [rowcmp_dir_file w a c ha hc]; decide
  · rw [rowcmp_file_dir w a b ha hb] at hab; exact absurd hab (by decide)
  · rw [rowcmp_file_dir w a b ha hb] at hab; exact absurd hab (by decide)
  · rw [rowcmp_file_dir w b c hb hc] at hbc; exact absurd hbc (by decide)
  · rw [rowcmp_same_class w a b (by simp [ha, hb])] at hab
    rw [rowcmp_same_class w b c (by simp [hb, hc])] at hbc
    rw [rowcmp_same_class w a c (by simp [ha, hc])]
    exact coll_le_trans _ hcoll _ _ _ hab hbc

theorem qsort_rowcmp_sorted (w : world) (hcoll : collation_total_order w.strcoll)
    (l : List row_t) : (qsort (rowcmp w) l).Pairwise (fun a b => rowcmp w a b ≤ 0) := by
  haveI : IsTotal row_t (fun a b => rowcmp w a b ≤ 0) := ⟨rowcmp_le_total w hcoll⟩
  haveI : IsTrans row_t (fun a b => rowcmp w a b ≤ 0) := ⟨rowcmp_le_trans w hcoll⟩
  exact List.sorted_insertionSort (fun a b => rowcmp w a b ≤ 0) l

/-- C7: with a collation that is a strict total order on names, in the listing
that `ls` stores every directory row (name with `'/'`) has a lower index than
every file row, and of two rows of the same class the one at the lower index
has the name that collates first. -/
theorem C7_ls_directories_first_then_collated (w : world)
    (hcoll : collation_total_order w.strcoll) (path : List Char) (flags : Nat)
    (dp : List dirent) (hopen : w.opendir path = some dp) :
    ∃ rows, (ls w path flags).2 = some rows ∧
      ∀ (i j : Nat) (ri rj : row_t), rows[i]? = some ri → rows[j]? = some rj →
        ('/' ∈ ri.name → '/' ∉ rj.name → i < j) ∧
        (i < j → ('/' ∈ ri.name ↔ '/' ∈ rj.name) →
          w.strcoll ri.name rj.name ≤ 0 ∧
          (ri.name ≠ rj.name → w.strcoll ri.name rj.name < 0)) := by
  refine ⟨qsort (rowcmp w) (ls_rows flags dp), by simp [ls, hopen], ?_⟩
  have hs := List.pairwise_iff_getElem.1 (qsort_rowcmp_sorted w hcoll (ls_rows flags dp))
  intro i j ri rj hi hj
  obtain ⟨hi1, hi2⟩ := List.getElem?_eq_some_iff.1 hi
  obtain ⟨hj1, hj2⟩ := List.getElem?_eq_some_iff.1 hj
  constructor
  · intro hdi hfj
    by_contra hnot
    rcases Nat.lt_or_ge j i with hlt | hge
    · have h := hs j i hj1 hi1 hlt
      rw [hi2, hj2, rowcmp_file_dir w rj ri hfj hdi] at h
      exact absurd h (by decide)
    · have hij : i = j := by omega
      subst hij
      rw [hi] at hj
      cases hj
      exact hfj hdi
  · intro hlt hclass
    have h := hs i j hi1 hj1 hlt
    rw [hi2, hj2, rowcmp_same_class w ri rj hclass] at h
    refine ⟨h, fun hne => ?_⟩
    rcases lt_or_eq_of_le h with h1 | h1
    · exact h1
    · exact absurd ((hcoll.2.2 _ _).1 h1) hne

theorem C7_ls_directories_first_then_collated_witness :
    (collation_total_order sample_world.strcoll ∧
      ((ls sample_world "/home/".toList 7).2.map (fun rows => rows.map row_t.name))
        = some ["report/".toList, ".profile".toList, "apple".toList, "readme.txt".toList,
            "zeta".toList]) ∧
    ∃ rows, (ls sample_world "/home/".toList 7).2 = some rows ∧
      ∀ (i j : Nat) (ri rj : row_t), rows[i]? = some ri → rows[j]? = some rj →
        ('/' ∈ ri.name → '/' ∉ rj.name → i < j) ∧
        (i < j → ('/' ∈ ri.name ↔ '/' ∈ rj.name) →
          sample_world.strcoll ri.name rj.name ≤ 0 ∧
          (ri.name ≠ rj.name → sample_world.strcoll ri.name rj.name < 0)) :=
  ⟨⟨strcmp_total_order, by decide⟩,
    C7_ls_directories_first_then_collated sample_world strcmp_total_order "/home/".toList 7
      sample_dir rfl⟩



/-! ## `cd` and the filter toggles -/

theorem ls_count (w : world) (path : List Char) (flags : Nat) (rows : List row_t)
    (h : (ls w path flags).2 = some rows) : (ls w path flags).1 = rows.length := by
  unfold ls at h ⊢
  cases hopen : w.opendir path with
  | none => simp [hopen] at h
  | some dp =>
    simp only [hopen, Option.some.injEq] at h ⊢
    rw [h]

theorem relist_CWD (w : world) (reset : Bool) (s : rover_t) : CWD (relist w reset s) = CWD s := by
  unfold relist
  cases reset <;> by_cases h : s.nfiles = 0 <;> simp [h] <;> split <;> simp

theorem relist_FLAGS (w : world) (reset : Bool) (s : rover_t) :
    FLAGS (relist w reset s) = FLAGS s := by
  unfold relist
  cases reset <;> by_cases h : s.nfiles = 0 <;> simp [h] <;> split <;> simp

theorem relist_FSEL_reset (w : world) (s : rover_t) : FSEL (relist w true s) = 0 := by
  unfold relist
  by_cases h : s.nfiles = 0 <;> simp [h] <;> split <;> simp

theorem relist_nfiles (w : world) (reset : Bool) (s : rover_t) :
    (relist w reset s).nfiles = (ls w (CWD s) (FLAGS s)).1 := by
  unfold relist
  cases reset <;> by_cases h : s.nfiles = 0 <;> simp [h] <;> split <;> simp_all

theorem relist_rows (w : world) (reset : Bool) (s : rover_t) (rows : List row_t)
    (hls : (ls w (CWD s) (FLAGS s)).2 = some rows) : (relist w reset s).rows = rows := by
  unfold relist
  cases reset <;> by_cases h : s.nfiles = 0 <;> simp [h] <;> split <;> simp_all


theorem update_browser_eq_some (L : Int) (s s1 : rover_t) (h : update_browser L s = some s1) :
    s1 = s := by
  unfold update_browser at h
  split_ifs at h <;> simp_all

theorem update_browser_of (L : Int) (s : rover_t) (h : s.nfiles ≠ 0 ∨ 0 ≤ HEIGHT L) :
    update_browser L s = some s := by
  unfold update_browser
  split_ifs with h1 h2
  · rcases h with h | h
    · exact absurd h2 h
    · omega
  · rfl
  · rfl

theorem update_browser_none (L : Int) (s : rover_t) (h0 : s.nfiles = 0) (hL : HEIGHT L < 0) :
    update_browser L s = none := by
  unfold update_browser
  rw [if_pos (by omega), if_pos h0]

theorem update_browser_some_iff (L : Int) (s : rover_t) :
    (∃ s1, update_browser L s = some s1) ↔ (s.nfiles ≠ 0 ∨ 0 ≤ HEIGHT L) := by
  constructor
  · rintro ⟨s1, h⟩
    by_contra hc
    push_neg at hc
    rw [update_browser_none L s hc.1 hc.2] at h
    exact absurd h (by simp)
  · intro h
    exact ⟨s, update_browser_of L s h⟩

/-- Behind the guard `if (!rover.nfiles) continue;` the division of
`update_browser` is defined. -/
theorem update_browser_of_ne_zero (L : Int) (s : rover_t) (h : s.nfiles ≠ 0) :
    update_browser L s = some s :=
  update_browser_of L s (Or.inl h)

theorem cd_eq_some (w : world) (L : Int) (reset : Bool) (s s1 : rover_t)
    (h : cd w L reset s = some s1) : s1 = relist w reset s :=
  update_browser_eq_some L _ s1 h

theorem cd_of (w : world) (L : Int) (reset : Bool) (s : rover_t)
    (h : (ls w (CWD s) (FLAGS s)).1 ≠ 0 ∨ 0 ≤ HEIGHT L) :
    cd w L reset s = some (relist w reset s) := by
  unfold cd
  apply update_browser_of
  rw [relist_nfiles]
  exact h

theorem cd_none (w : world) (L : Int) (reset : Bool) (s : rover_t)
    (h0 : (ls w (CWD s) (FLAGS s)).1 = 0) (hL : HEIGHT L < 0) : cd w L reset s = none := by
  unfold cd
  apply update_browser_none
  · rw [relist_nfiles]
    exact h0
  · exact hL

theorem cd_some_iff (w : world) (L : Int) (reset : Bool) (s : rover_t) :
    (∃ s1, cd w L reset s = some s1) ↔ ((ls w (CWD s) (FLAGS s)).1 ≠ 0 ∨ 0 ≤ HEIGHT L) := by
  unfold cd
  rw [update_browser_some_iff, relist_nfiles]

theorem rtakeWhile_slash (P d : List Char) (hP : P.getLast? = some '/') (hd : '/' ∉ d) :
    (P ++ d).rtakeWhile (fun c => c != '/') = d := by
  obtain ⟨P1, rfl⟩ : ∃ P1, P = P1 ++ ['/'] := by
    rcases List.eq_nil_or_concat P with h | ⟨P1, c, h⟩
    · subst h; simp at hP
    · subst h
      simp at hP
      exact ⟨P1, by rw [hP, List.concat_eq_append]⟩
  have hall : ∀ c ∈ d.reverse, (c != '/') = true := by
    intro c hc
    have : c ≠ '/' := fun h => hd (by rw [← h]; exact List.mem_reverse.1 hc)
    simpa using this
  simp [List.rtakeWhile, List.takeWhile_append_of_pos hall, List.takeWhile]

theorem rdropWhile_slash (P d : List Char) (hP : P.getLast? = some '/') (hd : '/' ∉ d) :
    (P ++ d).rdropWhile (fun c => c != '/') = P := by
  obtain ⟨P1, rfl⟩ : ∃ P1, P = P1 ++ ['/'] := by
    rcases List.eq_nil_or_concat P with h | ⟨P1, c, h⟩
    · subst h; simp at hP
    · subst h
      simp at hP
      exact ⟨P1, by rw [hP, List.concat_eq_append]⟩
  have hall : ∀ c ∈ d.reverse, (c != '/') = true := by
    intro c hc
    have : c ≠ '/' := fun h => hd (by rw [← h]; exact List.mem_reverse.1 hc)
    simpa using this
  simp [List.rdropWhile, List.dropWhile_append_of_pos hall, List.dropWhile]

theorem dispatch_cd_down (w : world) (m : machine) :
    dispatch w m (chr 'l')
      = (key_cd_down w m.LINES m.rover).map (fun s => { m with rover := s }) := rfl

theorem dispatch_cd_up (w : world) (m : machine) :
    dispatch w m (chr 'h')
      = (key_cd_up w m.LINES m.rover).map (fun s => { m with rover := s }) := rfl

theorem key_cd_down_dir (w : world) (L : Int) (s : rover_t) (name : List Char)
    (hn : s.nfiles ≠ 0) (hsel : FNAME s (FSEL s) = some name) (hdir : '/' ∈ name) :
    key_cd_down w L s
      = if (CWD s ++ name).length < w.FILENAME_MAX then
          cd w L true (setCWD s (CWD s ++ name))
        else none := by
  simp only [key_cd_down, hn, if_false, hsel, hdir, not_true_eq_false, strcat_CWD]
  split_ifs <;> rfl

theorem key_cd_down_eq_some (w : world) (L : Int) (s s1 : rover_t) (name : List Char)
    (hn : s.nfiles ≠ 0) (hsel : FNAME s (FSEL s) = some name) (hdir : '/' ∈ name)
    (h : key_cd_down w L s = some s1) :
    s1 = relist w true (setCWD s (CWD s ++ name)) ∧
      (CWD s ++ name).length < w.FILENAME_MAX := by
  rw [key_cd_down_dir w L s name hn hsel hdir] at h
  split_ifs at h with hfit
  exact ⟨cd_eq_some w L true _ s1 h, hfit⟩

theorem step_some_iff (w : world) (m : machine) (ch : Int) (o : Option rover_t)
    (h : step w m (event.key ch) = o.map (fun s => { m with rover := s })) :
    (∃ m1, step w m (event.key ch) = some m1) ↔ ∃ s1, o = some s1 := by
  rw [h]
  constructor
  · rintro ⟨m1, h1⟩
    rw [Option.map_eq_some'] at h1
    obtain ⟨s1, hs1, _⟩ := h1
    exact ⟨s1, hs1⟩
  · rintro ⟨s1, hs1⟩
    exact ⟨_, by rw [hs1]; rfl⟩

theorem cd_up_scan_spec (dirname : List Char) (rows : List row_t) :
    ∀ k : Nat, (∃ r ∈ rows, r.name = dirname) →
      ∃ (i : Nat) (r : row_t), cd_up_scan dirname rows k = some (k + i) ∧
        rows[i]? = some r ∧ r.name = dirname ∧
        ∀ (j : Nat) (r1 : row_t), j < i → rows[j]? = some r1 → r1.name ≠ dirname := by
  induction rows with
  | nil => intro k h; obtain ⟨r, hr, -⟩ := h; cases hr
  | cons r0 rest ih =>
    intro k h
    by_cases h0 : r0.name = dirname
    · exact ⟨0, r0, by simp [cd_up_scan, strcmp_eq_zero_iff, h0], by simp, h0,
        fun j r1 hj => absurd hj (Nat.not_lt_zero j)⟩
    · obtain ⟨r, hr, hname⟩ := h
      rcases List.mem_cons.1 hr with e | hmem
      · subst e; exact absurd hname h0
      · obtain ⟨i, r2, hi, hget, hn, hmin⟩ := ih (k + 1) ⟨r, hmem, hname⟩
        refine ⟨i + 1, r2, ?_, by simpa using hget, hn, ?_⟩
        · simp only [cd_up_scan, strcmp_eq_zero_iff, h0, ne_eq, not_false_eq_true, if_true, hi]
          congr 1
          omega
        · intro j r1 hj hj1
          cases j with
          | zero =>
            simp only [List.getElem?_cons_zero, Option.some.injEq] at hj1
            subst hj1
            exact h0
          | succ j =>
            exact hmin j r1 (by omega) (by simpa using hj1)

theorem key_cd_up_found (w : world) (L : Int) (s : rover_t) (P d : List Char) (i : Nat)
    (hcwd : CWD s = P ++ d ++ ['/']) (hP : P.getLast? = some '/') (hd : '/' ∉ d)
    (hdirs : FLAGS s &&& SHOW_DIRS ≠ 0)
    (hhid : FLAGS s &&& SHOW_HIDDEN ≠ 0 ∨ d.head? ≠ some '.')
    (hcd : cd w L true (setCWD s P) = some (relist w true (setCWD s P)))
    (hscan : cd_up_scan (d ++ ['/']) (relist w true (setCWD s P)).rows 0 = some i) :
    ∃ s2, key_cd_up w L s = some s2 ∧ FSEL s2 = i ∧
      s2.rows = (relist w true (setCWD s P)).rows ∧
      s2.nfiles = (relist w true (setCWD s P)).nfiles := by
  have hPne : P ≠ [] := by
    intro h; subst h; simp at hP
  have hlen : 2 ≤ (CWD s).length := by
    have := List.length_pos.2 hPne
    rw [hcwd]; simp; omega
  have hdl : (CWD s).dropLast = P ++ d := by
    rw [hcwd, List.dropLast_concat]
  have hmem : '/' ∈ P ++ d :=
    List.mem_append_left _ (List.mem_of_mem_getLast? hP)
  have h1 : ¬ (CWD s).length = 1 := by omega
  have h0 : ¬ (CWD s).length = 0 := by omega
  have hcond : FLAGS (relist w true (setCWD s P)) &&& SHOW_DIRS ≠ 0 ∧
      (FLAGS (relist w true (setCWD s P)) &&& SHOW_HIDDEN ≠ 0 ∨ d.head? ≠ some '.') := by
    rw [relist_FLAGS, FLAGS_setCWD]
    exact ⟨hdirs, hhid⟩
  simp only [key_cd_up, h1, h0, if_false, hdl, hmem, not_true_eq_false,
    rtakeWhile_slash P d hP hd, rdropWhile_slash P d hP hd, hcd, relist_FSEL_reset,
    Int.toNat_zero, List.drop_zero, hscan]
  rw [if_pos hcond]
  split_ifs <;> exact ⟨_, rfl, by simp, rfl, rfl⟩

/-- C11: an ascend from `P ++ d ++ "/"` under a mask that shows the directory
`d`, where `ls` yields `rows` for the parent `P` and a row named `d` plus `'/'`
is among them, is handled (the scan reads no row outside the array) and leaves
`FSEL` at the index of that row: the lowest index whose name equals it, below
the entry count. -/
theorem C11_ascend_selects_exited_directory (w : world) (m : machine) (P d : List Char)
    (rows : List row_t) (hmode : m.search = none)
    (hcwd : CWD m.rover = P ++ d ++ ['/']) (hP : P.getLast? = some '/') (hd : '/' ∉ d)
    (hdirs : FLAGS m.rover &&& SHOW_DIRS ≠ 0)
    (hhid : FLAGS m.rover &&& SHOW_HIDDEN ≠ 0 ∨ d.head? ≠ some '.')
    (hls : (ls w P (FLAGS m.rover)).2 = some rows)
    (hmem : ∃ r ∈ rows, r.name = d ++ ['/']) :
    ∃ (m1 : machine) (i : Nat) (r : row_t),
      step w m (event.key (chr 'h')) = some m1 ∧
      m1.rover.rows = rows ∧ m1.rover.nfiles = rows.length ∧
      FSEL m1.rover = i ∧ (i : Int) < m1.rover.nfiles ∧
      rows[i]? = some r ∧ r.name = d ++ ['/'] ∧
      ∀ (j : Nat) (r1 : row_t), j < i → rows[j]? = some r1 → r1.name ≠ d ++ ['/'] := by
  have hrows : (relist w true (setCWD m.rover P)).rows = rows := by
    apply relist_rows
    simpa using hls
  have hnf : (relist w true (setCWD m.rover P)).nfiles = rows.length := by
    rw [relist_nfiles, CWD_setCWD, FLAGS_setCWD]
    exact ls_count w P _ rows hls
  obtain ⟨i, r, hscan, hget, hname, hmin⟩ := cd_up_scan_spec (d ++ ['/']) rows 0 hmem
  rw [Nat.zero_add] at hscan
  have hi : i < rows.length := (List.getElem?_eq_some_iff.1 hget).1
  have hcd : cd w m.LINES true (setCWD m.rover P) = some (relist w true (setCWD m.rover P)) := by
    apply cd_of
    left
    rw [CWD_setCWD, FLAGS_setCWD, ls_count w P _ rows hls]
    omega
  obtain ⟨s2, hs2, hf, hr2, hn2⟩ :=
    key_cd_up_found w m.LINES m.rover P d i hcwd hP hd hdirs hhid hcd
      (by rw [hrows]; exact hscan)
  refine ⟨{ m with rover := s2 }, i, r, ?_, by rw [hr2, hrows], by rw [hn2, hnf], hf, ?_,
    hget, hname, hmin⟩
  · rw [step_browse w m _ hmode, dispatch_cd_up, hs2]
    rfl
  · show (i : Int) < s2.nfiles
    rw [hn2, hnf]
    exact_mod_cast hi


theorem C11_ascend_selects_exited_directory_witness :
    ((ls sample_root ['/'] (FLAGS sample_etc.rover)).2 = some sample_root_rows ∧
      (step sample_root sample_etc (event.key (chr 'h'))).map (fun m1 => FSEL m1.rover)
        = some 1) ∧
    ∃ (m1 : machine) (i : Nat) (r : row_t),
      step sample_root sample_etc (event.key (chr 'h')) = some m1 ∧
      m1.rover.rows = sample_root_rows ∧ m1.rover.nfiles = sample_root_rows.length ∧
      FSEL m1.rover = i ∧ (i : Int) < m1.rover.nfiles ∧
      sample_root_rows[i]? = some r ∧ r.name = "etc".toList ++ ['/'] ∧
      ∀ (j : Nat) (r1 : row_t), j < i → sample_root_rows[j]? = some r1 →
        r1.name ≠ "etc".toList ++ ['/'] :=
  ⟨by decide,
    C11_ascend_selects_exited_directory sample_root sample_etc ['/'] "etc".toList
      sample_root_rows rfl (by decide) (by decide) (by decide) (by decide) (by decide)
      (by decide) (by decide)⟩



/-! ## A listing that fails -/

/-- C12: where the directory cannot be opened `cd` stores the `-1` of `ls` in
`nfiles`, and the guards `if (!rover.nfiles)` let the keys through: `RVK_DOWN`
moves `FSEL` to 1, `RVK_UP` and `RVK_JUMP_DOWN` to -2, and `RVK_CD_DOWN`,
`RVK_VIEW` and `RVK_EDIT` read a row outside the (absent) array; over the empty
listing of `/etc/` the same keys leave `FSEL` at 0 and read nothing. -/
theorem C12_failed_listing_not_treated_as_empty :
    (sample_unreadable.rover.nfiles = -1 ∧ sample_unreadable.rover.rows = [] ∧
      FSEL sample_unreadable.rover = 0 ∧ SCROLL sample_unreadable.rover = 0) ∧
    ((step sample_world sample_unreadable (event.key (chr 'j'))).map
        (fun m => FSEL m.rover) = some 1 ∧
      (step sample_world sample_unreadable (event.key (chr 'k'))).map
        (fun m => FSEL m.rover) = some (-2) ∧
      (step sample_world sample_unreadable (event.key (chr 'J'))).map
        (fun m => FSEL m.rover) = some (-2) ∧
      (step sample_world sample_unreadable (event.key (chr 'l'))).isNone = true ∧
      (step sample_world sample_unreadable (event.key (chr ' '))).isNone = true ∧
      (step sample_world sample_unreadable (event.key (chr 'e'))).isNone = true) ∧
    (sample_etc.rover.nfiles = 0 ∧
      (step sample_root sample_etc (event.key (chr 'j'))).map
        (fun m => FSEL m.rover) = some 0 ∧
      (step sample_root sample_etc (event.key (chr 'k'))).map
        (fun m => FSEL m.rover) = some 0 ∧
      (step sample_root sample_etc (event.key (chr 'J'))).map
        (fun m => FSEL m.rover) = some 0 ∧
      (step sample_root sample_etc (event.key (chr 'l'))).isSome = true ∧
      (step sample_root sample_etc (event.key (chr ' '))).isSome = true ∧
      (step sample_root sample_etc (event.key (chr 'e'))).isSome = true) := by
  decide



/-! ## Refreshing without a cursor reset -/

theorem relist_FSEL_keep (w : world) (s : rover_t) : FSEL (relist w false s) = FSEL s := by
  unfold relist
  by_cases h : s.nfiles = 0 <;> simp [h] <;> split <;> simp

theorem relist_SCROLL_keep (w : world) (s : rover_t) : SCROLL (relist w false s) = SCROLL s := by
  unfold relist
  by_cases h : s.nfiles = 0 <;> simp [h] <;> split <;> simp

theorem dispatch_digit (w : world) (m : machine) (d : Int) (h0 : 0 ≤ d) (h9 : d ≤ 9) :
    dispatch w m (chr '0' + d)
      = (cd w m.LINES false (set_tab m.rover d.toNat)).map (fun s => { m with rover := s }) := by
  have hd : d = 0 ∨ d = 1 ∨ d = 2 ∨ d = 3 ∨ d = 4 ∨ d = 5 ∨ d = 6 ∨ d = 7 ∨ d = 8 ∨ d = 9 := by
    omega
  rcases hd with h | h | h | h | h | h | h | h | h | h <;> subst h <;> rfl

/-- Counterexample to C14 as stated: a state with the Tab invariant under 24
lines (`HEIGHT = 20`), `FSEL = 3` and `SCROLL = 0`; after a resize to 6 lines
(`HEIGHT = 2`) both are as before and `FSEL > SCROLL + HEIGHT - 1`. -/
theorem C14_resize_reclamps_window_counterexample :
    (0 ≤ FSEL sample_last.rover ∧ FSEL sample_last.rover < sample_last.rover.nfiles ∧
      0 ≤ SCROLL sample_last.rover ∧
      SCROLL sample_last.rover ≤ max 0 (sample_last.rover.nfiles - HEIGHT sample_last.LINES) ∧
      SCROLL sample_last.rover ≤ FSEL sample_last.rover ∧
      FSEL sample_last.rover ≤ SCROLL sample_last.rover + HEIGHT sample_last.LINES - 1) ∧
    1 ≤ HEIGHT 6 ∧
    (step sample_world sample_last (event.winch 6)).map
      (fun m => (m.LINES, m.rover.nfiles, FSEL m.rover, SCROLL m.rover)) = some (6, 4, 3, 0) ∧
    (step sample_world sample_last (event.winch 6)).map
      (fun m => decide (FSEL m.rover ≤ SCROLL m.rover + HEIGHT m.LINES - 1)) = some false := by
  decide

/-- C14, amended: a resize to `lines` lines with a new height `HEIGHT >= 1` is
handled and leaves `FSEL` and `SCROLL` as they are, so `SCROLL <= FSEL` is kept;
`FSEL <= SCROLL + HEIGHT - 1` is kept when the new height is not smaller, and
`SCROLL <= max(0, nfiles - HEIGHT)` is kept when the new height is not larger
and the count is the same. -/
theorem C14_resize_keeps_cursor_and_scroll (w : world) (m : machine) (lines : Int)
    (hH : 1 ≤ HEIGHT lines)
    (h2 : SCROLL m.rover ≤ FSEL m.rover)
    (h3 : FSEL m.rover ≤ SCROLL m.rover + HEIGHT m.LINES - 1)
    (h4 : SCROLL m.rover ≤ max 0 (m.rover.nfiles - HEIGHT m.LINES)) :
    ∃ m1, step w m (event.winch lines) = some m1 ∧ m1.LINES = lines ∧
      m1.rover.nfiles = (ls w (CWD m.rover) (FLAGS m.rover)).1 ∧
      FSEL m1.rover = FSEL m.rover ∧ SCROLL m1.rover = SCROLL m.rover ∧
      SCROLL m1.rover ≤ FSEL m1.rover ∧
      (HEIGHT m.LINES ≤ HEIGHT lines → FSEL m1.rover ≤ SCROLL m1.rover + HEIGHT lines - 1) ∧
      (HEIGHT lines ≤ HEIGHT m.LINES → m1.rover.nfiles = m.rover.nfiles →
        SCROLL m1.rover ≤ max 0 (m1.rover.nfiles - HEIGHT lines)) := by
  have hcd : cd w lines false m.rover = some (relist w false m.rover) :=
    cd_of w lines false m.rover (Or.inr (by omega))
  have hf : FSEL (relist w false m.rover) = FSEL m.rover := relist_FSEL_keep w m.rover
  have hs : SCROLL (relist w false m.rover) = SCROLL m.rover := relist_SCROLL_keep w m.rover
  refine ⟨{ m with LINES := lines, rover := relist w false m.rover }, ?_, rfl,
    relist_nfiles w false m.rover, hf, hs, ?_, ?_, ?_⟩
  · simp only [step, handle_winch, hcd, Option.map_some']
  · show SCROLL (relist w false m.rover) ≤ FSEL (relist w false m.rover)
    rw [hf, hs]; exact h2
  · intro hle
    show FSEL (relist w false m.rover) ≤ SCROLL (relist w false m.rover) + HEIGHT lines - 1
    rw [hf, hs]; omega
  · intro hle hn
    show SCROLL (relist w false m.rover) ≤ max 0 ((relist w false m.rover).nfiles - HEIGHT lines)
    have hn1 : (relist w false m.rover).nfiles = m.rover.nfiles := hn
    rw [hs, hn1]
    rcases le_max_iff.1 h4 with h | h
    · exact le_max_of_le_left h
    · exact le_max_of_le_right (by omega)

theorem C14_resize_keeps_cursor_and_scroll_witness :
    (HEIGHT sample_last.LINES = 20 ∧ HEIGHT 30 = 26 ∧ FSEL sample_last.rover = 3 ∧
      sample_etc.rover.nfiles = 0 ∧ HEIGHT 3 = -1 ∧
      (step sample_root sample_etc (event.winch 3)).isNone = true) ∧
    ∃ m1, step sample_world sample_last (event.winch 30) = some m1 ∧ m1.LINES = 30 ∧
      m1.rover.nfiles
        = (ls sample_world (CWD sample_last.rover) (FLAGS sample_last.rover)).1 ∧
      FSEL m1.rover = FSEL sample_last.rover ∧ SCROLL m1.rover = SCROLL sample_last.rover ∧
      SCROLL m1.rover ≤ FSEL m1.rover ∧
      (HEIGHT sample_last.LINES ≤ HEIGHT 30 →
        FSEL m1.rover ≤ SCROLL m1.rover + HEIGHT 30 - 1) ∧
      (HEIGHT 30 ≤ HEIGHT sample_last.LINES → m1.rover.nfiles = sample_last.rover.nfiles →
        SCROLL m1.rover ≤ max 0 (m1.rover.nfiles - HEIGHT 30)) :=
  ⟨by decide,
    C14_resize_keeps_cursor_and_scroll sample_world sample_last 30 (by decide) (by decide)
      (by decide) (by decide)⟩



/-! ## Jumps and the window -/

theorem key_jump_down_inv (L : Int) (s : rover_t) (hH : 1 ≤ HEIGHT L) (hn : 1 ≤ s.nfiles)
    (h0 : 0 ≤ FSEL s) (h1 : FSEL s < s.nfiles) (h2 : 0 ≤ SCROLL s)
    (h3 : SCROLL s ≤ max 0 (s.nfiles - HEIGHT L)) (h4 : SCROLL s ≤ FSEL s)
    (h5 : FSEL s ≤ SCROLL s + HEIGHT L - 1) :
    (key_jump_down L s).nfiles = s.nfiles ∧
      0 ≤ FSEL (key_jump_down L s) ∧ FSEL (key_jump_down L s) < s.nfiles ∧
      0 ≤ SCROLL (key_jump_down L s) ∧
      SCROLL (key_jump_down L s) ≤ max 0 (s.nfiles - HEIGHT L) ∧
      SCROLL (key_jump_down L s) ≤ FSEL (key_jump_down L s) ∧
      FSEL (key_jump_down L s) ≤ SCROLL (key_jump_down L s) + HEIGHT L - 1 := by
  have h3a : SCROLL s ≤ 0 ∨ SCROLL s ≤ s.nfiles - HEIGHT L := le_max_iff.1 h3
  simp only [le_max_iff]
  unfold key_jump_down
  dsimp only
  split_ifs <;> simp_all [RV_JUMP] <;> omega

theorem key_jump_up_inv (L : Int) (s : rover_t) (hH : 1 ≤ HEIGHT L) (hn : 1 ≤ s.nfiles)
    (h0 : 0 ≤ FSEL s) (h1 : FSEL s < s.nfiles) (h2 : 0 ≤ SCROLL s)
    (h3 : SCROLL s ≤ max 0 (s.nfiles - HEIGHT L)) (h4 : SCROLL s ≤ FSEL s)
    (h5 : FSEL s ≤ SCROLL s + HEIGHT L - 1) :
    (key_jump_up s).nfiles = s.nfiles ∧
      0 ≤ FSEL (key_jump_up s) ∧ FSEL (key_jump_up s) < s.nfiles ∧
      0 ≤ SCROLL (key_jump_up s) ∧
      SCROLL (key_jump_up s) ≤ max 0 (s.nfiles - HEIGHT L) ∧
      SCROLL (key_jump_up s) ≤ FSEL (key_jump_up s) ∧
      FSEL (key_jump_up s) ≤ SCROLL (key_jump_up s) + HEIGHT L - 1 := by
  have h3a : SCROLL s ≤ 0 ∨ SCROLL s ≤ s.nfiles - HEIGHT L := le_max_iff.1 h3
  simp only [le_max_iff]
  unfold key_jump_up
  dsimp only
  split_ifs <;> simp_all [RV_JUMP] <;> omega


/-- C15: with `HEIGHT >= 1`, a non-empty listing and a state where
`0 <= FSEL < nfiles`, `0 <= SCROLL <= max(0, nfiles - HEIGHT)` and
`SCROLL <= FSEL <= SCROLL + HEIGHT - 1`, each of the keys `RVK_JUMP_DOWN` and
`RVK_JUMP_UP` is handled and leads to a state with the same three conditions. -/
theorem C15_jumps_keep_tab_invariant (w : world) (m : machine) (hmode : m.search = none)
    (hH : 1 ≤ HEIGHT m.LINES) (hn : 1 ≤ m.rover.nfiles)
    (h0 : 0 ≤ FSEL m.rover) (h1 : FSEL m.rover < m.rover.nfiles)
    (h2 : 0 ≤ SCROLL m.rover)
    (h3 : SCROLL m.rover ≤ max 0 (m.rover.nfiles - HEIGHT m.LINES))
    (h4 : SCROLL m.rover ≤ FSEL m.rover)
    (h5 : FSEL m.rover ≤ SCROLL m.rover + HEIGHT m.LINES - 1) :
    ∀ ch, ch = chr 'J' ∨ ch = chr 'K' →
      ∃ m1, step w m (event.key ch) = some m1 ∧ m1.LINES = m.LINES ∧
        m1.rover.nfiles = m.rover.nfiles ∧
        0 ≤ FSEL m1.rover ∧ FSEL m1.rover < m1.rover.nfiles ∧
        0 ≤ SCROLL m1.rover ∧
        SCROLL m1.rover ≤ max 0 (m1.rover.nfiles - HEIGHT m1.LINES) ∧
        SCROLL m1.rover ≤ FSEL m1.rover ∧
        FSEL m1.rover ≤ SCROLL m1.rover + HEIGHT m1.LINES - 1 := by
  intro ch hch
  rcases hch with rfl | rfl
  · obtain ⟨k0, k1, k2, k3, k4, k5, k6⟩ :=
      key_jump_down_inv m.LINES m.rover hH hn h0 h1 h2 h3 h4 h5
    refine ⟨{ m with rover := key_jump_down m.LINES m.rover }, ?_, rfl, k0, k1, ?_, k3, ?_,
      k5, k6⟩
    · rw [step_browse w m _ hmode, dispatch_jump_down]
    · show FSEL (key_jump_down m.LINES m.rover) < (key_jump_down m.LINES m.rover).nfiles
      rw [k0]; exact k2
    · show SCROLL (key_jump_down m.LINES m.rover)
        ≤ max 0 ((key_jump_down m.LINES m.rover).nfiles - HEIGHT m.LINES)
      rw [k0]; exact k4
  · obtain ⟨k0, k1, k2, k3, k4, k5, k6⟩ :=
      key_jump_up_inv m.LINES m.rover hH hn h0 h1 h2 h3 h4 h5
    refine ⟨{ m with rover := key_jump_up m.rover }, ?_, rfl, k0, k1, ?_, k3, ?_, k5, k6⟩
    · rw [step_browse w m _ hmode, dispatch_jump_up]
    · show FSEL (key_jump_up m.rover) < (key_jump_up m.rover).nfiles
      rw [k0]; exact k2
    · show SCROLL (key_jump_up m.rover) ≤ max 0 ((key_jump_up m.rover).nfiles - HEIGHT m.LINES)
      rw [k0]; exact k4

theorem C15_jumps_keep_tab_invariant_witness :
    (HEIGHT sample_hidden.LINES = 20 ∧ sample_hidden.rover.nfiles = 5 ∧
      (step sample_world sample_hidden (event.key (chr 'J'))).map
        (fun m1 => (FSEL m1.rover, SCROLL m1.rover)) = some (4, 0)) ∧
    ∀ ch, ch = chr 'J' ∨ ch = chr 'K' →
      ∃ m1, step sample_world sample_hidden (event.key ch) = some m1 ∧
        m1.LINES = sample_hidden.LINES ∧
        m1.rover.nfiles = sample_hidden.rover.nfiles ∧
        0 ≤ FSEL m1.rover ∧ FSEL m1.rover < m1.rover.nfiles ∧
        0 ≤ SCROLL m1.rover ∧
        SCROLL m1.rover ≤ max 0 (m1.rover.nfiles - HEIGHT m1.LINES) ∧
        SCROLL m1.rover ≤ FSEL m1.rover ∧
        FSEL m1.rover ≤ SCROLL m1.rover + HEIGHT m1.LINES - 1 :=
  ⟨by decide,
    C15_jumps_keep_tab_invariant sample_world sample_hidden rfl (by decide) (by decide)
      (by decide) (by decide) (by decide) (by decide) (by decide) (by decide)⟩



/-! ## The window after a search match -/

theorem search_key_match (w : world) (L : Int) (s : rover_t) (ss : search_t) (ch : Int)
    (q : List Char) (hrows : s.nfiles = s.rows.length)
    (hkey : igetstr w ss.SEARCH SEARCHSZ ch = (1, q)) (hq : q ≠ [])
    (hmatch : ∃ r ∈ s.rows, q <+: r.name) :
    ∃ (n : Nat) (s1 : rover_t), (n : Int) < s.nfiles ∧
      search_key w L s ss ch = some (s1, some { ss with SEARCH := q }) ∧
      s1.nfiles = s.nfiles ∧ FSEL s1 = n ∧
      SCROLL s1 = (if s.nfiles > HEIGHT L then
        (if (n : Int) < 3 then 0
         else if (n : Int) - 3 > s.nfiles - HEIGHT L then s.nfiles - HEIGHT L
         else (n : Int) - 3)
        else SCROLL s) := by
  obtain ⟨n, hn1, -, hn3, hn4, hn5⟩ := search_scan_spec s.rows q s.rows.length 0 (by omega)
  have hlen : q.length ≠ 0 := fun h => hq (List.length_eq_zero.1 h)
  have htoNat : s.nfiles.toNat = s.rows.length := by omega
  have hlt : n < s.rows.length := by
    by_contra hge
    obtain ⟨r, hr, hp⟩ := hmatch
    obtain ⟨j, hj, rfl⟩ := List.getElem_of_mem hr
    exact hn4 j _ (Nat.zero_le _) (by omega) (List.getElem?_eq_getElem hj) hp
  have hlt2 : (n : Int) < s.nfiles := by omega
  have hsk : ∀ s1 : rover_t,
      (if s.nfiles > HEIGHT L then
        (if (n : Int) < 3 then some (setSCROLL (setFSEL s n) 0, some { ss with SEARCH := q })
         else if (n : Int) - 3 > s.nfiles - HEIGHT L then
           some (setSCROLL (setFSEL s n) (s.nfiles - HEIGHT L), some { ss with SEARCH := q })
         else some (setSCROLL (setFSEL s n) ((n : Int) - 3), some { ss with SEARCH := q }))
       else some (setFSEL s n, some { ss with SEARCH := q }))
        = some (s1, some { ss with SEARCH := q }) →
      search_key w L s ss ch = some (s1, some { ss with SEARCH := q }) := by
    intro s1 h
    rw [← h]
    simp only [search_key, hkey, htoNat, hn1, hlen, hlt2]
    simp [hq]
  by_cases hgt : s.nfiles > HEIGHT L
  · by_cases h3 : (n : Int) < 3
    · exact ⟨n, setSCROLL (setFSEL s n) 0, hlt2, hsk _ (by simp only [hgt, h3, if_true]),
        rfl, by simp, by simp [hgt, h3]⟩
    · by_cases hbig : (n : Int) - 3 > s.nfiles - HEIGHT L
      · exact ⟨n, setSCROLL (setFSEL s n) (s.nfiles - HEIGHT L), hlt2,
          hsk _ (by simp only [hgt, h3, hbig, if_true, if_false]), rfl, by simp,
          by simp [hgt, h3, hbig]⟩
      · exact ⟨n, setSCROLL (setFSEL s n) ((n : Int) - 3), hlt2,
          hsk _ (by simp only [hgt, h3, hbig, if_true, if_false]), rfl, by simp,
          by simp [hgt, h3, hbig]⟩
  · exact ⟨n, setFSEL s n, hlt2, hsk _ (by simp only [hgt, if_false]), rfl, by simp,
      by simp [hgt]⟩

/-- Counterexample to C16 as stated: 5 entries in a view of 3 rows; the keystroke
`a` after the query `re` matches `readme.txt` at index 3 and sets `SCROLL = 0`,
so that `FSEL = 3 > SCROLL + HEIGHT - 1 = 2`. -/
theorem C16_search_match_window_counterexample :
    (HEIGHT sample_small.LINES = 3 ∧ sample_small.rover.nfiles = 5 ∧
      sample_small.rover.rows.map row_t.name
        = ["report/".toList, ".profile".toList, "apple".toList, "readme.txt".toList,
            "zeta".toList] ∧
      0 ≤ FSEL sample_small.rover ∧ FSEL sample_small.rover < sample_small.rover.nfiles ∧
      0 ≤ SCROLL sample_small.rover ∧
      SCROLL sample_small.rover
        ≤ max 0 (sample_small.rover.nfiles - HEIGHT sample_small.LINES) ∧
      SCROLL sample_small.rover ≤ FSEL sample_small.rover ∧
      FSEL sample_small.rover ≤ SCROLL sample_small.rover + HEIGHT sample_small.LINES - 1) ∧
    igetstr sample_world ['r', 'e'] SEARCHSZ (chr 'a') = (1, "rea".toList) ∧
    (step sample_world sample_small (event.key (chr 'a'))).map
      (fun m => (FSEL m.rover, SCROLL m.rover)) = some (3, 0) ∧
    ¬ ((3 : Int) ≤ 0 + HEIGHT sample_small.LINES - 1) := by
  decide

/-- C16, amended: in a state with `0 <= SCROLL <= max(0, nfiles - HEIGHT)`, a
search keystroke whose query is a prefix of some row name is handled and
afterwards `0 <= FSEL < nfiles`, `0 <= SCROLL <= max(0, nfiles - HEIGHT)` and
`SCROLL <= FSEL`; when `nfiles > HEIGHT` the new `SCROLL` is `FSEL - 3` clamped
into `[0, nfiles - HEIGHT]`; and `FSEL <= SCROLL + HEIGHT - 1` holds when
`HEIGHT >= 4` or the whole listing fits the view. -/
theorem C16_search_match_window (w : world) (m : machine) (ss : search_t) (ch : Int)
    (q : List Char) (hmode : m.search = some ss)
    (hrows : m.rover.nfiles = m.rover.rows.length)
    (hkey : igetstr w ss.SEARCH SEARCHSZ ch = (1, q)) (hq : q ≠ [])
    (hmatch : ∃ r ∈ m.rover.rows, q <+: r.name)
    (h2 : 0 ≤ SCROLL m.rover)
    (h3 : SCROLL m.rover ≤ max 0 (m.rover.nfiles - HEIGHT m.LINES)) :
    ∃ m1, step w m (event.key ch) = some m1 ∧ m1.LINES = m.LINES ∧
      m1.rover.nfiles = m.rover.nfiles ∧
      0 ≤ FSEL m1.rover ∧ FSEL m1.rover < m1.rover.nfiles ∧
      0 ≤ SCROLL m1.rover ∧
      SCROLL m1.rover ≤ max 0 (m1.rover.nfiles - HEIGHT m1.LINES) ∧
      SCROLL m1.rover ≤ FSEL m1.rover ∧
      (m1.rover.nfiles > HEIGHT m1.LINES →
        SCROLL m1.rover
          = max 0 (min (FSEL m1.rover - 3) (m1.rover.nfiles - HEIGHT m1.LINES))) ∧
      (4 ≤ HEIGHT m1.LINES ∨ m1.rover.nfiles ≤ HEIGHT m1.LINES →
        FSEL m1.rover ≤ SCROLL m1.rover + HEIGHT m1.LINES - 1) := by
  obtain ⟨n, s1, hn, hsk, hnf, hf, hs⟩ :=
    search_key_match w m.LINES m.rover ss ch q hrows hkey hq hmatch
  have h3a : SCROLL m.rover ≤ 0 ∨ SCROLL m.rover ≤ m.rover.nfiles - HEIGHT m.LINES :=
    le_max_iff.1 h3
  refine ⟨{ m with rover := s1, search := some { ss with SEARCH := q } }, ?_, rfl, hnf, ?_, ?_,
    ?_, ?_, ?_, ?_, ?_⟩
  · rw [step_search w m ss ch hmode, hsk]
    rfl
  · show 0 ≤ FSEL s1
    omega
  · show FSEL s1 < s1.nfiles
    omega
  · show 0 ≤ SCROLL s1
    rw [hs]; split_ifs <;> omega
  · show SCROLL s1 ≤ max 0 (s1.nfiles - HEIGHT m.LINES)
    rw [hs, hnf, le_max_iff]; split_ifs <;> omega
  · show SCROLL s1 ≤ FSEL s1
    rw [hs, hf]; split_ifs <;> omega
  · show s1.nfiles > HEIGHT m.LINES →
      SCROLL s1 = max 0 (min (FSEL s1 - 3) (s1.nfiles - HEIGHT m.LINES))
    intro hgt
    rw [hs, hf, hnf]
    rw [hnf] at hgt
    simp only [hgt, if_true]
    split_ifs <;> omega
  · show 4 ≤ HEIGHT m.LINES ∨ s1.nfiles ≤ HEIGHT m.LINES →
      FSEL s1 ≤ SCROLL s1 + HEIGHT m.LINES - 1
    intro hor
    rw [hs, hf]
    rw [hnf] at hor
    split_ifs <;> omega


theorem C16_search_match_window_witness :
    (HEIGHT sample_view4.LINES = 4 ∧ sample_view4.rover.nfiles = 5 ∧
      igetstr sample_world [] SEARCHSZ (chr 'z') = (1, ['z']) ∧
      (step sample_world sample_view4 (event.key (chr 'z'))).map
        (fun m1 => (FSEL m1.rover, SCROLL m1.rover)) = some (4, 1)) ∧
    ∃ m1, step sample_world sample_view4 (event.key (chr 'z')) = some m1 ∧
      m1.LINES = sample_view4.LINES ∧
      m1.rover.nfiles = sample_view4.rover.nfiles ∧
      0 ≤ FSEL m1.rover ∧ FSEL m1.rover < m1.rover.nfiles ∧
      0 ≤ SCROLL m1.rover ∧
      SCROLL m1.rover ≤ max 0 (m1.rover.nfiles - HEIGHT m1.LINES) ∧
      SCROLL m1.rover ≤ FSEL m1.rover ∧
      (m1.rover.nfiles > HEIGHT m1.LINES →
        SCROLL m1.rover
          = max 0 (min (FSEL m1.rover - 3) (m1.rover.nfiles - HEIGHT m1.LINES))) ∧
      (4 ≤ HEIGHT m1.LINES ∨ m1.rover.nfiles ≤ HEIGHT m1.LINES →
        FSEL m1.rover ≤ SCROLL m1.rover + HEIGHT m1.LINES - 1) :=
  ⟨by decide,
    C16_search_match_window sample_world sample_view4
      { oldsel := 0, oldscroll := 0, SEARCH := [] } (chr 'z') ['z'] rfl (by decide)
      (by decide) (by decide) (by decide) (by decide) (by decide)⟩



/-! ## Ascending from a directory that the mask hides -/

theorem key_cd_up_path (w : world) (L : Int) (s s2 : rover_t)
    (hlen : 2 ≤ (CWD s).length) (hup : key_cd_up w L s = some s2) :
    '/' ∈ (CWD s).dropLast ∧
      CWD s2 = (CWD s).dropLast.rdropWhile (fun c => c != '/') := by
  have h1 : ¬ (CWD s).length = 1 := by omega
  have h0 : ¬ (CWD s).length = 0 := by omega
  simp only [key_cd_up, h1, h0, if_false] at hup
  by_cases hmem : '/' ∈ (CWD s).dropLast
  · refine ⟨hmem, ?_⟩
    simp only [hmem, not_true_eq_false, if_false] at hup
    cases hcd : cd w L true
        (setCWD s ((CWD s).dropLast.rdropWhile (fun c => c != '/'))) with
    | none => rw [hcd] at hup; exact absurd hup (by simp)
    | some s1 =>
      have e := cd_eq_some w L true _ s1 hcd
      subst e
      rw [hcd] at hup
      dsimp only at hup
      split_ifs at hup
      · split at hup
        · exact absurd hup (by simp)
        · split_ifs at hup <;>
            (simp only [Option.some.injEq] at hup
             subst hup
             simp [relist_CWD])
      · simp only [Option.some.injEq] at hup
        subst hup
        simp [relist_CWD]
  · simp [hmem] at hup

theorem rdropWhile_slash_shape (p : List Char) (hhead : p.head? = some '/') :
    (p.rdropWhile (fun c => c != '/')).head? = some '/' ∧
      (p.rdropWhile (fun c => c != '/')).getLast? = some '/' := by
  have hmem : '/' ∈ p := List.mem_of_mem_head? hhead
  have hne : p.rdropWhile (fun c => c != '/') ≠ [] := by
    intro h
    have := (List.rdropWhile_eq_nil_iff.1 h) '/' hmem
    simp at this
  constructor
  · obtain ⟨t, ht⟩ := List.rdropWhile_prefix (fun c => c != '/') p
    cases hq : p.rdropWhile (fun c => c != '/') with
    | nil => exact absurd hq hne
    | cons a q =>
      rw [hq] at ht
      rw [← ht] at hhead
      simpa using hhead
  · have := List.rdropWhile_last_not (fun c => c != '/') p hne
    rw [List.getLast?_eq_getLast _ hne]
    simpa using this

theorem dispatch_home (w : world) (m : machine) :
    dispatch w m (chr 'H')
      = (key_home w m.LINES m.rover).map (fun s => { m with rover := s }) := rfl

theorem setCWD_setCWD (s : rover_t) (a b : List Char) : setCWD (setCWD s a) b = setCWD s b := by
  unfold setCWD
  congr 1
  funext i
  dsimp only
  split_ifs <;> rfl

theorem key_home_eq (w : world) (L : Int) (s : rover_t) (home : List Char)
    (hhome : w.HOME = some home) (hne : home ≠ []) :
    key_home w L s
      = if (if home.getLast? = some '/' then home else home ++ ['/']).length
            < w.FILENAME_MAX then
          cd w L true (setCWD s (if home.getLast? = some '/' then home else home ++ ['/']))
        else none := by
  have hlen : ¬ home.length = 0 := fun h => hne (List.length_eq_zero.1 h)
  simp only [key_home, hhome, hlen, if_false, strcpy_CWD]
  by_cases hfit : home.length < w.FILENAME_MAX
  · rw [if_pos hfit]
    dsimp only
    rw [CWD_setCWD]
    by_cases hl : home.getLast? = some '/'
    · simp only [hl, ne_eq, not_true_eq_false, if_false, if_true, hfit]
    · simp only [hl, not_false_eq_true, if_true, if_false, strcat_CWD, CWD_setCWD,
        setCWD_setCWD]
      split_ifs <;> rfl
  · rw [if_neg hfit]
    dsimp only
    have : ¬ (if home.getLast? = some '/' then home else home ++ ['/']).length
        < w.FILENAME_MAX := by
      split_ifs
      · exact hfit
      · simp only [List.length_append, List.length_singleton]
        omega
    rw [if_neg this]

/-- Counterexample to C18 as stated: with `HOME=home` the key `RVK_HOME` turns
the path `/home/` into `home/`, which does not start with `'/'`. -/
theorem C18_path_stays_absolute_counterexample :
    ((CWD sample_machine.rover).head? = some '/' ∧
      (CWD sample_machine.rover).getLast? = some '/') ∧
    sample_relative_home.HOME = some "home".toList ∧
    (step sample_relative_home sample_machine (event.key (chr 'H'))).map
      (fun m => CWD m.rover) = some "home/".toList ∧
    ¬ ("home/".toList.head? = some '/') := by
  decide

/-- C18, amended: with a `CWD` that starts and ends with `'/'` (and a selected
row whose name, if it has a `'/'`, ends with it, as the rows of `ls` do), the
path after a handled `RVK_CD_DOWN` or `RVK_CD_UP` still starts and ends with
`'/'`; after a handled `RVK_HOME` with a non-empty `HOME` the path is `HOME`,
with a `'/'` appended unless it ends with one, which starts with `'/'` when
`HOME` does, and the key is handled exactly when that path fits the `cwd` buffer
and the division of `update_browser` is defined (the listing is not empty, or
`HEIGHT >= 0`); and `RVK_CD_UP` on the path `/` leaves the whole state as it
is. -/
theorem C18_path_stays_absolute_and_terminated (w : world) (m : machine)
    (hmode : m.search = none) (habs : (CWD m.rover).head? = some '/')
    (hend : (CWD m.rover).getLast? = some '/')
    (hnames : ∀ name, FNAME m.rover (FSEL m.rover) = some name → '/' ∈ name →
      name.getLast? = some '/') :
    (∀ m1, step w m (event.key (chr 'l')) = some m1 →
      (CWD m1.rover).head? = some '/' ∧ (CWD m1.rover).getLast? = some '/') ∧
    (∀ m1, step w m (event.key (chr 'h')) = some m1 →
      (CWD m1.rover).head? = some '/' ∧ (CWD m1.rover).getLast? = some '/') ∧
    (∀ home, w.HOME = some home → home ≠ [] →
      (∀ m1, step w m (event.key (chr 'H')) = some m1 →
        CWD m1.rover = (if home.getLast? = some '/' then home else home ++ ['/']) ∧
        (CWD m1.rover).getLast? = some '/' ∧
        (home.head? = some '/' → (CWD m1.rover).head? = some '/')) ∧
      ((∃ m1, step w m (event.key (chr 'H')) = some m1) ↔
        ((if home.getLast? = some '/' then home else home ++ ['/']).length
            < w.FILENAME_MAX ∧
          ((ls w (if home.getLast? = some '/' then home else home ++ ['/'])
              (FLAGS m.rover)).1 ≠ 0 ∨ 0 ≤ HEIGHT m.LINES)))) ∧
    (CWD m.rover = ['/'] → step w m (event.key (chr 'h')) = some m) := by
  refine ⟨?_, ?_, ?_, ?_⟩
  · intro m1 h
    rw [step_browse w m _ hmode, dispatch_cd_down] at h
    cases hk : key_cd_down w m.LINES m.rover with
    | none => simp [hk] at h
    | some s1 =>
      simp only [hk, Option.map_some', Option.some.injEq] at h
      subst h
      show (CWD s1).head? = some '/' ∧ (CWD s1).getLast? = some '/'
      by_cases hn : m.rover.nfiles = 0
      · simp only [key_cd_down, hn, if_true, Option.some.injEq] at hk
        subst hk
        exact ⟨habs, hend⟩
      · cases hf : FNAME m.rover (FSEL m.rover) with
        | none => simp [key_cd_down, hn, hf] at hk
        | some name =>
          by_cases hsl : '/' ∈ name
          · obtain ⟨e, -⟩ := key_cd_down_eq_some w m.LINES m.rover s1 name hn hf hsl hk
            subst e
            have hlast := hnames name hf hsl
            have hname : name ≠ [] := by
              intro e; subst e; simp at hsl
            rw [relist_CWD, CWD_setCWD]
            constructor
            · cases hc : CWD m.rover with
              | nil => rw [hc] at habs; simp at habs
              | cons a t => rw [hc] at habs; simpa using habs
            · rw [List.getLast?_append_of_ne_nil _ hname]
              exact hlast
          · simp only [key_cd_down, hn, if_false, hf, hsl, not_false_eq_true, if_true,
              Option.some.injEq] at hk
            subst hk
            exact ⟨habs, hend⟩
  · intro m1 h
    rw [step_browse w m _ hmode, dispatch_cd_up] at h
    cases hk : key_cd_up w m.LINES m.rover with
    | none => simp [hk] at h
    | some s1 =>
      simp only [hk, Option.map_some', Option.some.injEq] at h
      subst h
      show (CWD s1).head? = some '/' ∧ (CWD s1).getLast? = some '/'
      by_cases h1 : (CWD m.rover).length = 1
      · simp only [key_cd_up, h1, if_true, Option.some.injEq] at hk
        subst hk
        exact ⟨habs, hend⟩
      · have hpos : (CWD m.rover).length ≠ 0 := by
          intro h0
          rw [List.length_eq_zero.1 h0] at habs
          simp at habs
        obtain ⟨-, hcwd⟩ := key_cd_up_path w m.LINES m.rover s1 (by omega) hk
        rw [hcwd]
        apply rdropWhile_slash_shape
        cases hc : CWD m.rover with
        | nil => rw [hc] at hpos; simp at hpos
        | cons a t =>
          rw [hc] at habs h1
          cases t with
          | nil => simp at h1
          | cons b u =>
            simp only [List.head?_cons, Option.some.injEq] at habs
            subst habs
            simp [List.dropLast]
  · intro home hhome hne
    have hstep : step w m (event.key (chr 'H'))
        = (key_home w m.LINES m.rover).map (fun s => { m with rover := s }) := by
      rw [step_browse w m _ hmode, dispatch_home]
    have hkey := key_home_eq w m.LINES m.rover home hhome hne
    constructor
    · intro m1 h1
      rw [hstep, Option.map_eq_some'] at h1
      obtain ⟨s1, hs1, rfl⟩ := h1
      rw [hkey] at hs1
      split_ifs at hs1 with hl hfit hfit
      · have e := cd_eq_some w m.LINES true _ s1 hs1
        subst e
        refine ⟨by rw [relist_CWD, CWD_setCWD, if_pos hl], ?_, ?_⟩
        · show (CWD (relist w true (setCWD m.rover home))).getLast? = some '/'
          rw [relist_CWD, CWD_setCWD]
          exact hl
        · intro hh
          show (CWD (relist w true (setCWD m.rover home))).head? = some '/'
          rw [relist_CWD, CWD_setCWD]
          exact hh
      · have e := cd_eq_some w m.LINES true _ s1 hs1
        subst e
        refine ⟨by rw [relist_CWD, CWD_setCWD, if_neg hl], ?_, ?_⟩
        · show (CWD (relist w true (setCWD m.rover (home ++ ['/'])))).getLast? = some '/'
          rw [relist_CWD, CWD_setCWD]
          simp
        · intro hh
          show (CWD (relist w true (setCWD m.rover (home ++ ['/'])))).head? = some '/'
          rw [relist_CWD, CWD_setCWD]
          cases home with
          | nil => exact absurd rfl hne
          | cons a t => simpa using hh
    · have hcd := cd_some_iff w m.LINES true
        (setCWD m.rover (if home.getLast? = some '/' then home else home ++ ['/']))
      rw [CWD_setCWD, FLAGS_setCWD] at hcd
      rw [step_some_iff w m (chr 'H') _ hstep, hkey, ← hcd]
      generalize (if home.getLast? = some '/' then home else home ++ ['/']) = tgt
      constructor
      · rintro ⟨s1, h⟩
        split_ifs at h with hfit
        exact ⟨hfit, s1, h⟩
      · rintro ⟨hfit, s1, h⟩
        exact ⟨s1, by rw [if_pos hfit, h]⟩
  · intro hroot
    rw [step_browse w m _ hmode, dispatch_cd_up]
    simp [key_cd_up, hroot]

theorem C18_path_stays_absolute_and_terminated_witness :
    (CWD sample_top.rover = ['/'] ∧
      (step sample_root sample_top (event.key (chr 'l'))).map (fun m1 => CWD m1.rover)
        = some "/bin/".toList ∧
      (step sample_root sample_top (event.key (chr 'h'))).map (fun m1 => CWD m1.rover)
        = some ['/'] ∧
      (step sample_root sample_top (event.key (chr 'H'))).map (fun m1 => CWD m1.rover)
        = some ['/'] ∧
      (step { sample_root with HOME := some "/etc".toList } { sample_top with LINES := 3 }
        (event.key (chr 'H'))).isNone = true) ∧
    ((∀ m1, step sample_root sample_top (event.key (chr 'l')) = some m1 →
      (CWD m1.rover).head? = some '/' ∧ (CWD m1.rover).getLast? = some '/') ∧
    (∀ m1, step sample_root sample_top (event.key (chr 'h')) = some m1 →
      (CWD m1.rover).head? = some '/' ∧ (CWD m1.rover).getLast? = some '/') ∧
    (∀ home, sample_root.HOME = some home → home ≠ [] →
      (∀ m1, step sample_root sample_top (event.key (chr 'H')) = some m1 →
        CWD m1.rover = (if home.getLast? = some '/' then home else home ++ ['/']) ∧
        (CWD m1.rover).getLast? = some '/' ∧
        (home.head? = some '/' → (CWD m1.rover).head? = some '/')) ∧
      ((∃ m1, step sample_root sample_top (event.key (chr 'H')) = some m1) ↔
        ((if home.getLast? = some '/' then home else home ++ ['/']).length
            < sample_root.FILENAME_MAX ∧
          ((ls sample_root (if home.getLast? = some '/' then home else home ++ ['/'])
              (FLAGS sample_top.rover)).1 ≠ 0 ∨ 0 ≤ HEIGHT sample_top.LINES)))) ∧
    (CWD sample_top.rover = ['/'] →
      step sample_root sample_top (event.key (chr 'h')) = some sample_top)) :=
  ⟨by decide,
    C18_path_stays_absolute_and_terminated sample_root sample_top rfl (by decide)
      (by decide) (by
        intro name h _
        have h2 : FNAME sample_top.rover (FSEL sample_top.rover) = some "bin/".toList := by
          decide
        rw [h2] at h
        rw [← Option.some.inj h]
        decide)⟩



/-! ## The other tabs -/

theorem same_others_refl (s : rover_t) : same_others s s :=
  ⟨rfl, fun _ _ => ⟨rfl, rfl, rfl, rfl⟩⟩

theorem same_others_setFSEL (s t : rover_t) (v : Int) (h : same_others s t) :
    same_others s (setFSEL t v) := by
  obtain ⟨ht, hf⟩ := h
  refine ⟨ht, fun i hi => ?_⟩
  obtain ⟨a, b, c, d⟩ := hf i hi
  have hi2 : i ≠ t.tab := by rw [ht]; exact hi
  exact ⟨a, by simp [setFSEL, hi2, b], c, d⟩

theorem same_others_setSCROLL (s t : rover_t) (v : Int) (h : same_others s t) :
    same_others s (setSCROLL t v) := by
  obtain ⟨ht, hf⟩ := h
  refine ⟨ht, fun i hi => ?_⟩
  obtain ⟨a, b, c, d⟩ := hf i hi
  have hi2 : i ≠ t.tab := by rw [ht]; exact hi
  exact ⟨a, b, by simp [setSCROLL, hi2, c], d⟩

theorem same_others_setFLAGS (s t : rover_t) (v : Nat) (h : same_others s t) :
    same_others s (setFLAGS t v) := by
  obtain ⟨ht, hf⟩ := h
  refine ⟨ht, fun i hi => ?_⟩
  obtain ⟨a, b, c, d⟩ := hf i hi
  have hi2 : i ≠ t.tab := by rw [ht]; exact hi
  exact ⟨a, b, c, by simp [setFLAGS, hi2, d]⟩

theorem same_others_setCWD (s t : rover_t) (v : List Char) (h : same_others s t) :
    same_others s (setCWD t v) := by
  obtain ⟨ht, hf⟩ := h
  refine ⟨ht, fun i hi => ?_⟩
  obtain ⟨a, b, c, d⟩ := hf i hi
  have hi2 : i ≠ t.tab := by rw [ht]; exact hi
  exact ⟨by simp [setCWD, hi2, a], b, c, d⟩

theorem same_others_set_rows (s t : rover_t) (v : List row_t) (h : same_others s t) :
    same_others s (set_rows t v) := h

theorem same_others_set_nfiles (s t : rover_t) (v : Int) (h : same_others s t) :
    same_others s (set_nfiles t v) := h

theorem relist_fields (w : world) (reset : Bool) (t : rover_t) :
    (relist w reset t).tab = t.tab ∧ (relist w reset t).cwd = t.cwd ∧
      (relist w reset t).flags = t.flags ∧
      (∀ i, i ≠ t.tab → (relist w reset t).fsel i = t.fsel i ∧
        (relist w reset t).scroll i = t.scroll i) ∧
      (reset = false → (relist w reset t).fsel = t.fsel ∧ (relist w reset t).scroll = t.scroll) := by
  unfold relist
  cases reset <;> by_cases h : t.nfiles = 0 <;> simp [h] <;> split <;>
    simp [setFSEL, setSCROLL, set_rows, set_nfiles] <;> intro i hi <;> simp [hi]

theorem same_others_relist (w : world) (reset : Bool) (s t : rover_t) (h : same_others s t) :
    same_others s (relist w reset t) := by
  obtain ⟨ht, hf⟩ := h
  obtain ⟨c1, c2, c3, c4, -⟩ := relist_fields w reset t
  refine ⟨c1.trans ht, fun i hi => ?_⟩
  obtain ⟨a, b, c, d⟩ := hf i hi
  have hi2 : i ≠ t.tab := by rw [ht]; exact hi
  obtain ⟨e1, e2⟩ := c4 i hi2
  exact ⟨by rw [c2]; exact a, e1.trans b, e2.trans c, by rw [c3]; exact d⟩


theorem same_others_key_down (L : Int) (s : rover_t) : same_others s (key_down L s) := by
  unfold key_down same_others
  dsimp only
  split_ifs <;> simp [setFSEL, setSCROLL] <;> intro i hi <;> simp [hi]

theorem same_others_key_up (L : Int) (s : rover_t) : same_others s (key_up L s) := by
  unfold key_up same_others
  dsimp only
  split_ifs <;> simp [setFSEL, setSCROLL] <;> intro i hi <;> simp [hi]

theorem same_others_key_jump_down (L : Int) (s : rover_t) :
    same_others s (key_jump_down L s) := by
  unfold key_jump_down same_others
  dsimp only
  split_ifs <;> simp [setFSEL, setSCROLL] <;> intro i hi <;> simp [hi]

theorem same_others_key_jump_up (s : rover_t) : same_others s (key_jump_up s) := by
  unfold key_jump_up same_others
  dsimp only
  split_ifs <;> simp [setFSEL, setSCROLL] <;> intro i hi <;> simp [hi]

theorem same_others_cd (w : world) (L : Int) (reset : Bool) (s t t1 : rover_t)
    (h : same_others s t) (hcd : cd w L reset t = some t1) : same_others s t1 := by
  rw [cd_eq_some w L reset t t1 hcd]
  exact same_others_relist w reset s t h

theorem same_others_strcat_CWD (w : world) (s t t1 : rover_t) (src : List Char)
    (h : same_others s t) (hcat : strcat_CWD w t src = some t1) : same_others s t1 := by
  unfold strcat_CWD at hcat
  split_ifs at hcat
  cases hcat
  exact same_others_setCWD s t _ h

theorem same_others_strcpy_CWD (w : world) (s t t1 : rover_t) (src : List Char)
    (h : same_others s t) (hcpy : strcpy_CWD w t src = some t1) : same_others s t1 := by
  unfold strcpy_CWD at hcpy
  split_ifs at hcpy
  cases hcpy
  exact same_others_setCWD s t _ h

theorem same_others_key_toggle (w : world) (L : Int) (bit : Nat) (s s1 : rover_t)
    (h : key_toggle w L bit s = some s1) : same_others s s1 :=
  same_others_cd w L true s _ s1 (same_others_setFLAGS s s _ (same_others_refl s)) h

theorem same_others_key_view (s s1 : rover_t) (h : key_view s = some s1) :
    same_others s s1 := by
  unfold key_view at h
  split_ifs at h
  · cases h; exact same_others_refl s
  · split at h
    · cases h
    · cases h; exact same_others_refl s

theorem same_others_key_cd_down (w : world) (L : Int) (s s1 : rover_t)
    (h : key_cd_down w L s = some s1) : same_others s s1 := by
  unfold key_cd_down at h
  split_ifs at h
  · cases h; exact same_others_refl s
  · split at h
    · cases h
    · split_ifs at h
      · cases hcat : strcat_CWD w s _ with
        | none => rw [hcat] at h; cases h
        | some t =>
          rw [hcat] at h
          exact same_others_cd w L true s t s1
            (same_others_strcat_CWD w s s t _ (same_others_refl s) hcat) h
      · cases h; exact same_others_refl s

theorem same_others_key_home (w : world) (L : Int) (s s1 : rover_t)
    (h : key_home w L s = some s1) : same_others s s1 := by
  unfold key_home at h
  split at h
  · cases h
  · split_ifs at h
    cases hcpy : strcpy_CWD w s _ with
    | none => rw [hcpy] at h; cases h
    | some t =>
      rw [hcpy] at h
      dsimp only at h
      have ht := same_others_strcpy_CWD w s s t _ (same_others_refl s) hcpy
      split_ifs at h
      · cases hcat : strcat_CWD w t ['/'] with
        | none => rw [hcat] at h; cases h
        | some t1 =>
          rw [hcat] at h
          exact same_others_cd w L true s t1 s1 (same_others_strcat_CWD w s t t1 _ ht hcat) h
      · exact same_others_cd w L true s t s1 ht h

theorem same_others_key_cd_up (w : world) (L : Int) (s s1 : rover_t)
    (h : key_cd_up w L s = some s1) : same_others s s1 := by
  have hbase : ∀ p : List Char, same_others s (relist w true (setCWD s p)) := fun p =>
    same_others_relist w true s _ (same_others_setCWD s s _ (same_others_refl s))
  unfold key_cd_up at h
  dsimp only at h
  split_ifs at h
  · cases h; exact same_others_refl s
  · cases hcd : cd w L true
        (setCWD s ((CWD s).dropLast.rdropWhile (fun c => c != '/'))) with
    | none => rw [hcd] at h; cases h
    | some t =>
      have e := cd_eq_some w L true _ t hcd
      subst e
      rw [hcd] at h
      dsimp only at h
      split_ifs at h
      · split at h
        · cases h
        · split_ifs at h <;> cases h <;>
            repeat (first
              | exact hbase _
              | apply same_others_setSCROLL
              | apply same_others_setFSEL)
      · cases h; exact hbase _


theorem same_others_search_key (w : world) (L : Int) (s s1 : rover_t) (ss : search_t)
    (ch : Int) (r : Option search_t) (h : search_key w L s ss ch = some (s1, r)) :
    same_others s s1 := by
  unfold search_key at h
  dsimp only at h
  split_ifs at h
  · cases h; exact same_others_refl s
  · split at h
    · cases h
    · split_ifs at h <;> cases h <;>
        repeat (first
          | exact same_others_refl s
          | apply same_others_setSCROLL
          | apply same_others_setFSEL)
  · cases h
    exact same_others_setSCROLL s _ _ (same_others_setFSEL s s _ (same_others_refl s))

theorem tab_switch_fields (w : world) (s : rover_t) (t : Nat) :
    (relist w false (set_tab s t)).tab = t ∧ (relist w false (set_tab s t)).cwd = s.cwd ∧
      (relist w false (set_tab s t)).fsel = s.fsel ∧ (relist w false (set_tab s t)).scroll = s.scroll ∧
      (relist w false (set_tab s t)).flags = s.flags := by
  obtain ⟨c1, c2, c3, -, c5⟩ := relist_fields w false (set_tab s t)
  obtain ⟨c6, c7⟩ := c5 rfl
  exact ⟨c1, c2, c6, c7, c3⟩

theorem dispatch_others (w : world) (m m1 : machine) (ch : Int)
    (h : dispatch w m ch = some m1) :
    ∀ i, i ≠ m.rover.tab →
      m1.rover.cwd i = m.rover.cwd i ∧ m1.rover.fsel i = m.rover.fsel i ∧
        m1.rover.scroll i = m.rover.scroll i ∧ m1.rover.flags i = m.rover.flags i := by
  have hopt : ∀ (o : Option rover_t),
      (∀ s1, o = some s1 → same_others m.rover s1) →
      o.map (fun s => { m with rover := s }) = some m1 → same_others m.rover m1.rover := by
    intro o ho hm
    cases o with
    | none => simp at hm
    | some s1 =>
      simp only [Option.map_some', Option.some.injEq] at hm
      subst hm
      exact ho s1 rfl
  unfold dispatch at h
  dsimp only at h
  by_cases c0 : keyname w ch = RVK_QUIT
  · rw [if_pos c0] at h
    cases h
    exact (same_others_refl _).2
  rw [if_neg c0] at h
  by_cases c1 : ch ≥ chr '0' ∧ ch ≤ chr '9'
  · rw [if_pos c1, Option.map_eq_some'] at h
    obtain ⟨s1, hs1, rfl⟩ := h
    rw [cd_eq_some w _ _ _ s1 hs1]
    intro i _
    obtain ⟨-, c2, c3, c4, c5⟩ := tab_switch_fields w m.rover (ch - chr '0').toNat
    exact ⟨by rw [c2], by rw [c3], by rw [c4], by rw [c5]⟩
  rw [if_neg c1] at h
  by_cases c2 : keyname w ch = RVK_DOWN
  · rw [if_pos c2] at h
    cases h
    exact (same_others_key_down _ _).2
  rw [if_neg c2] at h
  by_cases c3 : keyname w ch = RVK_UP
  · rw [if_pos c3] at h
    cases h
    exact (same_others_key_up _ _).2
  rw [if_neg c3] at h
  by_cases c4 : keyname w ch = RVK_JUMP_DOWN
  · rw [if_pos c4] at h
    cases h
    exact (same_others_key_jump_down _ _).2
  rw [if_neg c4] at h
  by_cases c5 : keyname w ch = RVK_JUMP_UP
  · rw [if_pos c5] at h
    cases h
    exact (same_others_key_jump_up _).2
  rw [if_neg c5] at h
  by_cases c6 : keyname w ch = RVK_CD_DOWN
  · rw [if_pos c6] at h
    exact (hopt _ (fun s1 hs => same_others_key_cd_down w _ _ s1 hs) h).2
  rw [if_neg c6] at h
  by_cases c7 : keyname w ch = RVK_CD_UP
  · rw [if_pos c7] at h
    exact (hopt _ (fun s1 hs => same_others_key_cd_up w _ _ s1 hs) h).2
  rw [if_neg c7] at h
  by_cases c8 : keyname w ch = RVK_HOME
  · rw [if_pos c8] at h
    exact (hopt _ (fun s1 hs => same_others_key_home w _ _ s1 hs) h).2
  rw [if_neg c8] at h
  by_cases c9 : keyname w ch = RVK_SHELL
  · rw [if_pos c9] at h
    cases h
    exact (same_others_refl _).2
  rw [if_neg c9] at h
  by_cases c10 : keyname w ch = RVK_VIEW
  · rw [if_pos c10] at h
    exact (hopt _ (fun s1 hs => same_others_key_view _ s1 hs) h).2
  rw [if_neg c10] at h
  by_cases c11 : keyname w ch = RVK_EDIT
  · rw [if_pos c11] at h
    exact (hopt _ (fun s1 hs => same_others_key_view _ s1 hs) h).2
  rw [if_neg c11] at h
  by_cases c12 : keyname w ch = RVK_SEARCH
  · rw [if_pos c12] at h
    cases h
    exact (same_others_refl _).2
  rw [if_neg c12] at h
  by_cases c13 : keyname w ch = RVK_TG_FILES
  · rw [if_pos c13] at h
    exact (hopt _ (fun s1 hs => same_others_key_toggle w _ _ _ s1 hs) h).2
  rw [if_neg c13] at h
  by_cases c14 : keyname w ch = RVK_TG_DIRS
  · rw [if_pos c14] at h
    exact (hopt _ (fun s1 hs => same_others_key_toggle w _ _ _ s1 hs) h).2
  rw [if_neg c14] at h
  by_cases c15 : keyname w ch = RVK_TG_HIDDEN
  · rw [if_pos c15] at h
    exact (hopt _ (fun s1 hs => same_others_key_toggle w _ _ _ s1 hs) h).2
  rw [if_neg c15] at h
  cases h
  exact (same_others_refl _).2

/-- Whenever an event (a key, in the dispatch of `main` or inside the search
loop, or `SIGWINCH`) is handled, every tab other than the active one keeps its
path, cursor, scroll offset and mask; whenever a digit key `d` read by the
dispatch of `main` is handled, `d` is the active tab and no tab's path, cursor,
scroll offset or mask has changed, and it is handled exactly when the division
of `update_browser` is defined (the listing of tab `d` is not empty, or
`HEIGHT >= 0`). -/
theorem other_tabs_unchanged (w : world) (m : machine) :
    (∀ (e : event) (m1 : machine), step w m e = some m1 →
      ∀ i, i ≠ m.rover.tab →
        m1.rover.cwd i = m.rover.cwd i ∧ m1.rover.fsel i = m.rover.fsel i ∧
          m1.rover.scroll i = m.rover.scroll i ∧ m1.rover.flags i = m.rover.flags i) ∧
    (∀ d : Int, 0 ≤ d → d ≤ 9 → m.search = none →
      (∀ m1, step w m (event.key (chr '0' + d)) = some m1 → m1.rover.tab = d.toNat ∧
        ∀ i, m1.rover.cwd i = m.rover.cwd i ∧ m1.rover.fsel i = m.rover.fsel i ∧
          m1.rover.scroll i = m.rover.scroll i ∧ m1.rover.flags i = m.rover.flags i) ∧
      ((∃ m1, step w m (event.key (chr '0' + d)) = some m1) ↔
        ((ls w (m.rover.cwd d.toNat) (m.rover.flags d.toNat)).1 ≠ 0 ∨
          0 ≤ HEIGHT m.LINES))) := by
  constructor
  · intro e m1 h
    cases e with
    | winch lines =>
      simp only [step, handle_winch, Option.map_eq_some'] at h
      obtain ⟨s1, hs1, rfl⟩ := h
      exact (same_others_cd w lines false m.rover m.rover s1 (same_others_refl _) hs1).2
    | key ch =>
      cases hs : m.search with
      | none =>
        rw [step_browse w m ch hs] at h
        exact dispatch_others w m m1 ch h
      | some ss =>
        rw [step_search w m ss ch hs] at h
        cases hk : search_key w m.LINES m.rover ss ch with
        | none => simp [hk] at h
        | some r =>
          simp only [hk, Option.map_some', Option.some.injEq] at h
          subst h
          exact (same_others_search_key w m.LINES m.rover r.1 ss ch r.2 hk).2
  · intro d h0 h9 hmode
    have hstep : step w m (event.key (chr '0' + d))
        = (cd w m.LINES false (set_tab m.rover d.toNat)).map
            (fun s => { m with rover := s }) := by
      rw [step_browse w m _ hmode, dispatch_digit w m d h0 h9]
    constructor
    · intro m1 h1
      rw [hstep, Option.map_eq_some'] at h1
      obtain ⟨s1, hs1, rfl⟩ := h1
      rw [cd_eq_some w _ _ _ s1 hs1]
      obtain ⟨c1, c2, c3, c4, c5⟩ := tab_switch_fields w m.rover d.toNat
      exact ⟨c1, fun i => ⟨by rw [c2], by rw [c3], by rw [c4], by rw [c5]⟩⟩
    · rw [step_some_iff w m _ _ hstep, cd_some_iff]
      rfl

/-- C19, where it fails: tab 1 holds a path of 4090 characters, which fits its
buffer of `FILENAME_MAX = 4096`, and the cursor is on the directory `report/`;
`RVK_CD_DOWN` appends the 7 characters of the name, and the 4097 characters and
their NUL do not fit `rover.cwd[1]`: `strcat` writes past it into `rover.cwd[2]`,
the path of another tab. With the short path `/home/` the same key is handled
and leaves the path of tab 2 as it is. -/
theorem C19_descend_writes_past_cwd_buffer :
    sample_world.FILENAME_MAX = 4096 ∧ sample_deep.rover.tab = 1 ∧
    (CWD sample_deep.rover).length = 4090 ∧
    FNAME sample_deep.rover (FSEL sample_deep.rover) = some "report/".toList ∧
    (CWD sample_deep.rover ++ "report/".toList).length = 4097 ∧
    (strcat_CWD sample_world sample_deep.rover "report/".toList).isNone = true ∧
    (step sample_world sample_deep (event.key (chr 'l'))).isNone = true ∧
    (step sample_world sample_machine (event.key (chr 'l'))).map
      (fun m1 => (CWD m1.rover, m1.rover.cwd 2))
      = some ("/home/report/".toList, "/home/".toList) := by
  have hcwd : CWD sample_deep.rover = '/' :: (List.replicate 4088 'a' ++ ['/']) := rfl
  have hlen : (CWD sample_deep.rover).length = 4090 := by
    rw [hcwd, List.length_cons, List.length_append, List.length_replicate]
    rfl
  have hname : FNAME sample_deep.rover (FSEL sample_deep.rover) = some "report/".toList := by
    decide
  have hlen2 : (CWD sample_deep.rover ++ "report/".toList).length = 4097 := by
    rw [List.length_append, hlen]
    rfl
  have hcat : strcat_CWD sample_world sample_deep.rover "report/".toList = none := by
    unfold strcat_CWD
    rw [if_neg]
    rw [hlen2]
    decide
  refine ⟨rfl, rfl, hlen, hname, hlen2, by rw [hcat]; rfl, ?_, by decide⟩
  have hk : key_cd_down sample_world sample_deep.LINES sample_deep.rover = none := by
    rw [key_cd_down_dir sample_world _ _ "report/".toList (by decide) hname (by decide),
      hlen2]
    rfl
  rw [step_browse sample_world sample_deep _ rfl, dispatch_cd_down, hk]
  rfl

/-! ## Stepping down and back up -/

theorem key_up_key_down (L : Int) (s : rover_t) (hn : 1 ≤ s.nfiles) (h0 : 0 ≤ FSEL s) :
    FSEL (key_up L (key_down L s)) = FSEL s := by
  have hnf : (key_down L s).nfiles = s.nfiles := by
    unfold key_down
    dsimp only
    split_ifs <;> simp
  have hd : FSEL (key_down L s) = if FSEL s = s.nfiles - 1 then 0 else FSEL s + 1 := by
    have hne : s.nfiles ≠ 0 := by omega
    unfold key_down
    dsimp only
    split_ifs <;> first | contradiction | simp
  have hu : FSEL (key_up L (key_down L s))
      = if FSEL (key_down L s) = 0 then (key_down L s).nfiles - 1
        else FSEL (key_down L s) - 1 := by
    have hne : (key_down L s).nfiles ≠ 0 := by omega
    generalize key_down L s = t at hne ⊢
    unfold key_up
    dsimp only
    split_ifs <;> first | contradiction | simp
  rw [hu, hd, hnf]
  split_ifs <;> omega

theorem key_down_key_up (L : Int) (s : rover_t) (hn : 1 ≤ s.nfiles)
    (h1 : FSEL s < s.nfiles) : FSEL (key_down L (key_up L s)) = FSEL s := by
  have hnf : (key_up L s).nfiles = s.nfiles := by
    unfold key_up
    dsimp only
    split_ifs <;> simp
  have hu : FSEL (key_up L s) = if FSEL s = 0 then s.nfiles - 1 else FSEL s - 1 := by
    have hne : s.nfiles ≠ 0 := by omega
    unfold key_up
    dsimp only
    split_ifs <;> first | contradiction | simp
  have hd : FSEL (key_down L (key_up L s))
      = if FSEL (key_up L s) = (key_up L s).nfiles - 1 then 0
        else FSEL (key_up L s) + 1 := by
    have hne : (key_up L s).nfiles ≠ 0 := by omega
    generalize key_up L s = t at hne ⊢
    unfold key_down
    dsimp only
    split_ifs <;> first | contradiction | simp
  rw [hd, hu, hnf]
  split_ifs <;> omega

/-- C20: on a non-empty listing with `0 <= FSEL < nfiles`, the keys `RVK_DOWN`
then `RVK_UP` are both handled and bring `FSEL` back to its value, and so do
`RVK_UP` then `RVK_DOWN`, the wrap at either end included. -/
theorem C20_down_up_restores_cursor (w : world) (m : machine) (hmode : m.search = none)
    (hn : 1 ≤ m.rover.nfiles) (h0 : 0 ≤ FSEL m.rover) (h1 : FSEL m.rover < m.rover.nfiles) :
    (∃ m1 m2, step w m (event.key (chr 'j')) = some m1 ∧
      step w m1 (event.key (chr 'k')) = some m2 ∧ FSEL m2.rover = FSEL m.rover) ∧
    (∃ m1 m2, step w m (event.key (chr 'k')) = some m1 ∧
      step w m1 (event.key (chr 'j')) = some m2 ∧ FSEL m2.rover = FSEL m.rover) := by
  constructor
  · refine ⟨{ m with rover := key_down m.LINES m.rover },
      { m with rover := key_up m.LINES (key_down m.LINES m.rover) }, ?_, ?_,
      key_up_key_down m.LINES m.rover hn h0⟩
    · rw [step_browse w m _ hmode, dispatch_down]
    · rw [step_browse w { m with rover := key_down m.LINES m.rover } _ hmode, dispatch_up]
  · refine ⟨{ m with rover := key_up m.LINES m.rover },
      { m with rover := key_down m.LINES (key_up m.LINES m.rover) }, ?_, ?_,
      key_down_key_up m.LINES m.rover hn h1⟩
    · rw [step_browse w m _ hmode, dispatch_up]
    · rw [step_browse w { m with rover := key_up m.LINES m.rover } _ hmode, dispatch_down]

theorem C20_down_up_restores_cursor_witness :
    (sample_last.rover.nfiles = 4 ∧ FSEL sample_last.rover = 3 ∧
      (step sample_world sample_last (event.key (chr 'j'))).map (fun m1 => FSEL m1.rover)
        = some 0) ∧
    ((∃ m1 m2, step sample_world sample_last (event.key (chr 'j')) = some m1 ∧
      step sample_world m1 (event.key (chr 'k')) = some m2 ∧
      FSEL m2.rover = FSEL sample_last.rover) ∧
    (∃ m1 m2, step sample_world sample_last (event.key (chr 'k')) = some m1 ∧
      step sample_world m1 (event.key (chr 'j')) = some m2 ∧
      FSEL m2.rover = FSEL sample_last.rover)) :=
  ⟨by decide,
    C20_down_up_restores_cursor sample_world sample_last rfl (by decide) (by decide)
      (by decide)⟩


end Rover
